import Mathlib

/-!
Verification development for the apster backend.

This file gives a shallow embedding of the backend core in Lean 4 and proves
properties of it.  The embedding covers:

* the settlement engine (`processPeriod` and the winner computations
  `computeWinnersFromOffchain` and `computeWinnersFromOnchain`, in their three
  generations found in the repository),
* the leaderboard query (`getLeaderboard`),
* the replay-submission endpoint with its session handling
  (`POST /api/submit-replay`),
* the profile-name endpoints (`POST /api/update-profile` and
  `POST /api/submit-score`).

JavaScript BigInt arithmetic is modelled with `Int` (BigInt division truncates
toward zero, which is `Int.tdiv`); JavaScript finite doubles are modelled with
`ℚ` (the endpoint only compares, floors and maxes them, and those operations
are exact on doubles, which are a subset of the rationals); a non-finite
double (NaN or an infinity) is modelled as `none`.  External calls to the
ledger contract are modelled by a `Contract` record of call outcomes, and each
embedded settlement function additionally returns the list of contract calls
it performed.
-/

/-- Association-list lookup, modelling property access `obj[key]` on a
JavaScript object used as a map. -/
def lookupA {α β : Type} [DecidableEq α] : List (α × β) → α → Option β
  | [], _ => none
  | (k, v) :: rest, key => if k = key then some v else lookupA rest key

/-- Association-list update, modelling `obj[key] = value`: an existing key is
overwritten in place, a new key is appended (JavaScript objects preserve
insertion order). -/
def setA {α β : Type} [DecidableEq α] : List (α × β) → α → β → List (α × β)
  | [], key, v => [(key, v)]
  | (k, w) :: rest, key, v =>
    if k = key then (k, v) :: rest else (k, w) :: setA rest key v

/-- Association-list deletion, modelling `delete obj[key]`. -/
def delA {α β : Type} [DecidableEq α] : List (α × β) → α → List (α × β)
  | [], _ => []
  | (k1, v) :: rest, key =>
    if k1 = key then delA rest key else (k1, v) :: delA rest key

/-- Stable insertion step for a descending sort: `x` is placed before the
first element whose key is strictly smaller, so elements with equal keys keep
their original relative order, matching the (stable) JavaScript `sort` with a
descending numeric comparator. -/
def insertDescBy {α : Type} (key : α → Int) (x : α) : List α → List α
  | [] => [x]
  | y :: ys => if key x < key y then y :: insertDescBy key x ys
               else x :: y :: ys

/-- Stable descending sort by an integer key. -/
def sortDescBy {α : Type} (key : α → Int) : List α → List α
  | [] => []
  | x :: xs => insertDescBy key x (sortDescBy key xs)

/-- Calls made to the external ledger contract. -/
inductive LCall
  | poolBalanceRead
  | playersRead
  | depositRead (addr : String)
  | payPlayersCall (winners : List String) (amounts : List Int)
  | payHouseCall (h1 h2 : Int)
  | resetCall
deriving DecidableEq, Repr

/-- Model of the WagerPoolSingleEntry contract as the backend observes it:
the outcome of each operation the settlement code may invoke (a resolved
promise carries a value or a transaction hash, a rejected one an error
message), plus whether the optional methods exist on the contract object. -/
structure Contract where
  poolBalanceRes : Except String Int
  playersRes : Except String (List String)
  depositRes : String → Except String Int
  payPlayersRes : Except String String
  payHouseRes : Except String String
  resetRes : Except String String
  hasPayHouse : Bool
  hasReset : Bool

/-- One in-memory score record (the shape kept in `db.scores`). -/
structure ScoreRec where
  user_address : String
  profile_name : Option String
  email : Option String
  highest_score : Int
  last_score : Option Int
  games_played : Int
  level : Int
deriving DecidableEq, Repr

/-- One payout line `{to, amount}` of a settled period. -/
structure Payout where
  toAddr : String
  amount : Int
deriving DecidableEq, Repr

/-- One in-memory period record (the shape kept in `db.periods`). -/
structure PeriodRec where
  status : Option String
  txHash : Option String
  payouts : Option (List Payout)
  error : Option String
deriving DecidableEq, Repr

/-- The in-memory database slice the settlement engine touches. -/
structure Db where
  scores : List (String × ScoreRec)
  periods : List (Int × PeriodRec)
deriving DecidableEq, Repr

/-- Result shape returned by `computeWinnersFromOffchain` in leaderboard.js:
`{winners, amounts, house, poolBalanceBN}`.  Note the single `house` field;
there are no `house1` or `house2` fields on this result. -/
structure OffResult where
  winners : List String
  amounts : List Int
  house : Int
  poolBalance : Int
deriving DecidableEq, Repr

/-- Add a remainder to the first amount (`amounts[0] += remainder`). -/
def bumpHead (r : Int) : List Int → List Int
  | [] => []
  | a :: rest => (a + r) :: rest

/-- The distribution percentages of `computeWinnersFromOffchain` for `m` top
players: 48, 29 and 9 percent for the first three, 2 percent for each
remaining player, truncated to the number of players present. -/
def offPercents (m : Nat) : List Int :=
  (([48, 29, 9] : List Int) ++ List.replicate (m - 3) 2).take m

/-- The payout amounts of `computeWinnersFromOffchain` for payout pool `pp`
and `m` top players: each share is `payoutPool * pct / totalPercent` in
truncating BigInt division, and a positive remainder is added to the first
share. -/
def offAmounts (pp : Int) (m : Nat) : List Int :=
  let percents := offPercents m
  let totalPercent := percents.sum
  let amounts0 := percents.map (fun p => Int.tdiv (pp * p) totalPercent)
  let remainder := pp - amounts0.sum
  if 0 < remainder then bumpHead remainder amounts0 else amounts0

/-- Embedding of `computeWinnersFromOffchain(contract, db)` from the
Postgres-generation leaderboard.js: read the pool balance on-chain (an error
is caught and yields an empty result), rank the in-memory scores, take the
top 10, keep 30 percent as the house fee and split the remaining 70 percent
as 48/29/9 percent for the first three players and 2 percent for each further
player, assigning any integer-division remainder to the first player. -/
def computeWinnersFromOffchain (c : Contract) (scores : List ScoreRec) :
    OffResult × List LCall :=
  match c.poolBalanceRes with
  | .error _ => (⟨[], [], 0, 0⟩, [LCall.poolBalanceRead])
  | .ok pb =>
    if pb = 0 then (⟨[], [], 0, 0⟩, [LCall.poolBalanceRead])
    else if scores.isEmpty then (⟨[], [], 0, pb⟩, [LCall.poolBalanceRead])
    else
      let sorted := sortDescBy (fun s => s.highest_score) scores
      let topPlayers := sorted.take 10
      let houseFee := Int.tdiv (pb * 30) 100
      let payoutPool := pb - houseFee
      let amounts := offAmounts payoutPool topPlayers.length
      (⟨topPlayers.map (fun s => s.user_address), amounts, houseFee, pb⟩,
        [LCall.poolBalanceRead])

/-- The idempotency guard of every `processPeriod` generation: a period whose
existing record has status `processing` or `paid` is not re-entered. -/
def guardBlocked : Option PeriodRec → Bool
  | none => false
  | some p => p.status = some "processing" || p.status = some "paid"

/-- Reset phase of the Postgres-generation `processPeriod`: `resetPayments`
is invoked when the contract has it, and a failure is only logged (the
outcome is ignored and the period is still recorded as paid). -/
def v3ResetPhase (c : Contract) (db1 : Db) (idx : Int) (result : OffResult)
    (txh : String) (trace : List LCall) : Db × List LCall :=
  let trace2 := if c.hasReset then trace ++ [LCall.resetCall] else trace
  let payouts := result.winners.zipWith (fun w a => Payout.mk w a) result.amounts
  ({ db1 with
      periods := setA db1.periods idx ⟨some "paid", some txh, some payouts, none⟩ },
    trace2)

/-- House phase of the Postgres-generation `processPeriod`.  The code parses
`BigInt(result.house1 || "0")` and `BigInt(result.house2 || "0")`, but
`computeWinnersFromOffchain` returns a single `house` field and never sets
`house1` or `house2`; in JavaScript both reads are `undefined`, so both
amounts are 0 and the `payHouse` branch can never be entered. -/
def v3HousePhase (c : Contract) (db1 : Db) (idx : Int) (result : OffResult)
    (txh : String) (trace : List LCall) : Db × List LCall :=
  let h1 : Int := 0
  let h2 : Int := 0
  if (0 < h1 ∨ 0 < h2) ∧ c.hasPayHouse = true then
    match c.payHouseRes with
    | .error e =>
        ({ db1 with
            periods := setA db1.periods idx ⟨some "failed", none, none, some e⟩ },
          trace ++ [LCall.payHouseCall h1 h2])
    | .ok _ =>
        v3ResetPhase c db1 idx result txh (trace ++ [LCall.payHouseCall h1 h2])
  else v3ResetPhase c db1 idx result txh trace

/-- Embedding of `processPeriod(contract, db, periodIndex, ...)` from the
Postgres-generation leaderboard.js: guard on the existing record, mark the
period `processing`, compute winners off-chain, mark `paid` with an empty
payout list when there are none, otherwise pay the players (a failure marks
the period `failed` with the error recorded), run the house and reset phases
and record the period `paid` with the payPlayers transaction hash. -/
def processPeriod_v3 (c : Contract) (db : Db) (idx : Int) : Db × List LCall :=
  if guardBlocked (lookupA db.periods idx) then (db, [])
  else
    let db1 : Db :=
      { db with periods := setA db.periods idx ⟨some "processing", none, none, none⟩ }
    let step := computeWinnersFromOffchain c (db1.scores.map Prod.snd)
    let result := step.1
    let t1 := step.2
    if result.winners.isEmpty then
      ({ db1 with
          periods := setA db1.periods idx ⟨some "paid", none, some [], none⟩ }, t1)
    else
      match c.payPlayersRes with
      | .error e =>
          ({ db1 with
              periods := setA db1.periods idx ⟨some "failed", none, none, some e⟩ },
            t1 ++ [LCall.payPlayersCall result.winners result.amounts])
      | .ok txh =>
          v3HousePhase c db1 idx result txh
            (t1 ++ [LCall.payPlayersCall result.winners result.amounts])

/-- One visible leaderboard row produced by `getLeaderboard`. -/
structure LBEntry where
  user_address : String
  profile_name : Option String
  score : Int
  level : Int
  rank : Nat
deriving DecidableEq, Repr

/-- The individually queried player record produced by `getLeaderboard`. -/
structure PlayerView where
  user_address : String
  profile_name : Option String
  score : Int
  level : Int
  rank : Option Nat
deriving DecidableEq, Repr

/-- Lower-casing as `String.prototype.toLowerCase` behaves on the characters
this backend handles. -/
def jsLower (s : String) : String := String.mk (s.data.map Char.toLower)

/-- Whitespace test used by the `trim` model. -/
def isWsChar (c : Char) : Bool := c = ' ' || c = '\t' || c = '\n' || c = '\r'

/-- Trimming as `String.prototype.trim` behaves on the characters this
backend handles. -/
def jsTrim (s : String) : String :=
  String.mk (((s.data.dropWhile isWsChar).reverse.dropWhile isWsChar).reverse)

/-- Rank assignment for the visible leaderboard rows: the row built from the
element at offset `i` carries rank `i + 1`. -/
def rankify (i : Nat) : List ScoreRec → List LBEntry
  | [] => []
  | p :: ps =>
    LBEntry.mk p.user_address p.profile_name p.highest_score p.level (i + 1) ::
      rankify (i + 1) ps

/-- Embedding of `getLeaderboard(db, limit, user)` from the
Postgres-generation leaderboard.js: drop players with a non-positive highest
score, sort the rest descending by highest score, expose the first `limit`
rows with ranks 1, 2, ..., and, when a user is queried, return their record
with a rank computed among the scored players only (null when their score is
not positive). -/
def getLeaderboard (scores : List (String × ScoreRec)) (limit : Nat)
    (user : Option String) : List LBEntry × Option PlayerView :=
  let allPlayers := scores.map Prod.snd
  let scoredPlayers := allPlayers.filter (fun p => 0 < p.highest_score)
  let sorted := sortDescBy (fun p => p.highest_score) scoredPlayers
  let leaderboard := rankify 0 (sorted.take limit)
  let player :=
    match user with
    | none => none
    | some u =>
      let normalized := jsLower (jsTrim u)
      match lookupA scores normalized with
      | none => none
      | some p =>
        let score := p.highest_score
        let rank :=
          if 0 < score then
            match sorted.findIdx? (fun x => x.user_address = normalized) with
            | some i => some (i + 1)
            | none => none
          else none
        some (PlayerView.mk p.user_address p.profile_name score p.level rank)
  (leaderboard, player)

/-- Result shape returned by the on-chain winner computations:
`{winners, amounts, house1, house2, poolBalanceBN}` (the early-return empty
results carry no house fields, which downstream reads as 0). -/
structure OnResult where
  winners : List String
  amounts : List Int
  house1 : Int
  house2 : Int
  poolBalance : Int
deriving DecidableEq, Repr

/-- Add 1 to each of the first `r` entries, modelling the remainder loop
`for (let i = 0; rem > 0 && i < split.length; i++, rem--) split[i] += 1`. -/
def bumpFirst : Nat → List Nat → List Nat
  | _, [] => []
  | 0, l => l
  | r + 1, x :: xs => (x + 1) :: bumpFirst r xs

/-- The percentage split of the file-generation `computeWinnersFromOnchain`
(src/leaderboard.js): a fixed table for 1, 2 and 3 winners, and otherwise an
even `floor(100 / N)` split with the remainder added to the earliest entries
one unit at a time. -/
def splitFor (topN : Nat) : List Nat :=
  if topN = 1 then [100]
  else if topN = 2 then [60, 40]
  else if topN = 3 then [50, 30, 20]
  else bumpFirst (100 - (100 / topN) * topN) (List.replicate topN (100 / topN))

/-- The percentage split of the oldest inline `computeWinnersFromOnchain`
(the part_002 index.js): the same fixed table, but for more than 3 winners
just `floor(100 / N)` each, with no remainder distribution. -/
def splitForV2 (topN : Nat) : List Nat :=
  if topN = 1 then [100]
  else if topN = 2 then [60, 40]
  else if topN = 3 then [50, 30, 20]
  else List.replicate topN (100 / topN)

/-- The payout loop shared by both on-chain winner computations: walk the
first `min(TOP_N, deposits.length)` ranked entries (the caller passes the
ranked list already truncated to `TOP_N`), take `split[i] ?? 0` percent of
the payout pool for the entry at index `i`, and keep only entries whose
amount is strictly positive. -/
def payoutLoop (payoutPool : Int) : List (String × Int) → List Nat →
    List (String × Int)
  | [], _ => []
  | d :: ds, pcts =>
    let pct : Int := (pcts.headD 0 : Nat)
    let amount := Int.tdiv (payoutPool * pct) 100
    let rest := payoutLoop payoutPool ds pcts.tail
    if 0 < amount then (d.1, amount) :: rest else rest

/-- Deposits read in the file-generation `computeWinnersFromOnchain`: the
deposit of every player is awaited (`Promise.all`), and a single failing read
rejects the whole computation. -/
def allDeposits (c : Contract) : List String → Except String (List (String × Int))
  | [] => .ok []
  | p :: ps =>
    match c.depositRes p with
    | .error e => .error e
    | .ok d =>
      match allDeposits c ps with
      | .error e => .error e
      | .ok rest => .ok ((p, d) :: rest)

/-- Embedding of `computeWinnersFromOnchain(contract, TOP_N, HOUSE_FEE_BPS)`
from src/leaderboard.js: read the on-chain players and their deposits (any
read failure rejects), rank by deposit, read the pool balance, keep
`HOUSE_FEE_BPS` basis points as the house fee, split the rest by `splitFor`,
and split the house fee 50/50 between the two house accounts. -/
def computeWinnersFromOnchain_lb (c : Contract) (topN : Nat) (bps : Nat) :
    Except String OnResult × List LCall :=
  match c.playersRes with
  | .error e => (.error e, [LCall.playersRead])
  | .ok players =>
    if players.isEmpty then (.ok ⟨[], [], 0, 0, 0⟩, [LCall.playersRead])
    else
      let dtrace := players.map LCall.depositRead
      match allDeposits c players with
      | .error e => (.error e, LCall.playersRead :: dtrace)
      | .ok deposits =>
        let sorted := sortDescBy Prod.snd deposits
        let trace := LCall.playersRead :: dtrace ++ [LCall.poolBalanceRead]
        match c.poolBalanceRes with
        | .error e => (.error e, trace)
        | .ok pb =>
          if pb = 0 then (.ok ⟨[], [], 0, 0, 0⟩, trace)
          else
            let houseFeeTotal := Int.tdiv (pb * bps) 10000
            let payoutPool := pb - houseFeeTotal
            let entries := payoutLoop payoutPool (sorted.take topN) (splitFor topN)
            let house1 := Int.tdiv (houseFeeTotal * 50) 100
            let house2 := houseFeeTotal - house1
            (.ok ⟨entries.map Prod.fst, entries.map Prod.snd, house1, house2, pb⟩,
              trace)

/-- Embedding of the oldest inline `computeWinnersFromOnchain` (part_002
index.js): like the file-generation one, except a failing deposit read is
caught and counted as a 0 deposit, the split table is `splitForV2`, and the
house split percentage comes from the environment. -/
def computeWinnersFromOnchain_v2 (c : Contract) (topN : Nat) (bps : Nat)
    (w1pct : Int) : Except String OnResult × List LCall :=
  match c.playersRes with
  | .error e => (.error e, [LCall.playersRead])
  | .ok players =>
    if players.isEmpty then (.ok ⟨[], [], 0, 0, 0⟩, [LCall.playersRead])
    else
      let dtrace := players.map LCall.depositRead
      let deposits := players.map (fun p =>
        (p, match c.depositRes p with | .ok d => d | .error _ => 0))
      let sorted := sortDescBy Prod.snd deposits
      let trace := LCall.playersRead :: dtrace ++ [LCall.poolBalanceRead]
      match c.poolBalanceRes with
      | .error e => (.error e, trace)
      | .ok pb =>
        if pb = 0 then (.ok ⟨[], [], 0, 0, 0⟩, trace)
        else
          let houseFeeTotal := Int.tdiv (pb * bps) 10000
          let payoutPool := pb - houseFeeTotal
          let entries := payoutLoop payoutPool (sorted.take topN) (splitForV2 topN)
          let house1 := Int.tdiv (houseFeeTotal * w1pct) 100
          let house2 := houseFeeTotal - house1
          (.ok ⟨entries.map Prod.fst, entries.map Prod.snd, house1, house2, pb⟩,
            trace)

/-- Reset and paid phase of the file-generation `processPeriod`
(src/leaderboard.js): `resetPayments` is invoked when the contract has it,
and here a failure does propagate to the surrounding catch. -/
def lbResetPhase (c : Contract) (db1 : Db) (idx : Int) (result : OnResult)
    (txh : String) (trace : List LCall) : Db × List LCall :=
  let payouts := result.winners.zipWith (fun w a => Payout.mk w a) result.amounts
  if c.hasReset then
    match c.resetRes with
    | .error e =>
        ({ db1 with
            periods := setA db1.periods idx ⟨some "failed", none, none, some e⟩ },
          trace ++ [LCall.resetCall])
    | .ok _ =>
        ({ db1 with
            periods :=
              setA db1.periods idx ⟨some "paid", some txh, some payouts, none⟩ },
          trace ++ [LCall.resetCall])
  else
    ({ db1 with
        periods := setA db1.periods idx ⟨some "paid", some txh, some payouts, none⟩ },
      trace)

/-- House phase of the file-generation `processPeriod`: `payHouse(h1, h2)` is
invoked when either half of the house fee is positive, and a failure
propagates to the surrounding catch. -/
def lbHousePhase (c : Contract) (db1 : Db) (idx : Int) (result : OnResult)
    (txh : String) (trace : List LCall) : Db × List LCall :=
  let h1 := result.house1
  let h2 := result.house2
  if 0 < h1 ∨ 0 < h2 then
    match c.payHouseRes with
    | .error e =>
        ({ db1 with
            periods := setA db1.periods idx ⟨some "failed", none, none, some e⟩ },
          trace ++ [LCall.payHouseCall h1 h2])
    | .ok _ => lbResetPhase c db1 idx result txh (trace ++ [LCall.payHouseCall h1 h2])
  else lbResetPhase c db1 idx result txh trace

/-- Embedding of `processPeriod(contract, db, periodIndex, TOP_N,
HOUSE_FEE_BPS, opts)` from src/leaderboard.js: guard, mark `processing`,
compute winners on-chain (a rejected read marks the period `failed`), mark
`paid` with no payouts when there are no winners, pay players, pay the house,
reset, and mark `paid`; every failure inside the try block marks the period
`failed` with the error recorded. -/
def processPeriod_lb (c : Contract) (db : Db) (idx : Int) (topN : Nat)
    (bps : Nat) : Db × List LCall :=
  if guardBlocked (lookupA db.periods idx) then (db, [])
  else
    let db1 : Db :=
      { db with periods := setA db.periods idx ⟨some "processing", none, none, none⟩ }
    let step := computeWinnersFromOnchain_lb c topN bps
    match step.1 with
    | .error e =>
        ({ db1 with
            periods := setA db1.periods idx ⟨some "failed", none, none, some e⟩ },
          step.2)
    | .ok result =>
      if result.winners.isEmpty then
        ({ db1 with
            periods := setA db1.periods idx ⟨some "paid", none, some [], none⟩ },
          step.2)
      else
        match c.payPlayersRes with
        | .error e =>
            ({ db1 with
                periods := setA db1.periods idx ⟨some "failed", none, none, some e⟩ },
              step.2 ++ [LCall.payPlayersCall result.winners result.amounts])
        | .ok txh =>
            lbHousePhase c db1 idx result txh
              (step.2 ++ [LCall.payPlayersCall result.winners result.amounts])

/-- Settlement phase of the oldest inline `processPeriod` (part_002
index.js), run on an already computed winner result: no winners means `paid`
with no payouts; otherwise the payout invariant `sumPayouts + houseFeeTotal
<= poolBalance` is checked, and a violation throws ("Calculated payouts
exceed pool balance") before any disbursement call; then `payPlayers`,
conditionally `payHouse`, and an unconditional `resetPayments`, any failure
marking the period `failed`. -/
def settleWithResult_v2 (c : Contract) (bps : Nat) (db1 : Db) (idx : Int)
    (result : OnResult) : Db × List LCall :=
  if result.winners.isEmpty then
    ({ db1 with
        periods := setA db1.periods idx ⟨some "paid", none, some [], none⟩ }, [])
  else
    let sumPayouts := result.amounts.sum
    let pb := result.poolBalance
    let houseFeeTotal := Int.tdiv (pb * bps) 10000
    if pb < sumPayouts + houseFeeTotal then
      ({ db1 with
          periods :=
            setA db1.periods idx
              ⟨some "failed", none, none, some "Calculated payouts exceed pool balance"⟩ },
        [])
    else
      match c.payPlayersRes with
      | .error e =>
          ({ db1 with
              periods := setA db1.periods idx ⟨some "failed", none, none, some e⟩ },
            [LCall.payPlayersCall result.winners result.amounts])
      | .ok txh =>
        let t1 := [LCall.payPlayersCall result.winners result.amounts]
        let afterHouse : Except String Unit × List LCall :=
          if 0 < result.house1 ∨ 0 < result.house2 then
            match c.payHouseRes with
            | .error e => (.error e, t1 ++ [LCall.payHouseCall result.house1 result.house2])
            | .ok _ => (.ok (), t1 ++ [LCall.payHouseCall result.house1 result.house2])
          else (.ok (), t1)
        match afterHouse.1 with
        | .error e =>
            ({ db1 with
                periods := setA db1.periods idx ⟨some "failed", none, none, some e⟩ },
              afterHouse.2)
        | .ok _ =>
          match c.resetRes with
          | .error e =>
              ({ db1 with
                  periods := setA db1.periods idx ⟨some "failed", none, none, some e⟩ },
                afterHouse.2 ++ [LCall.resetCall])
          | .ok _ =>
              let payouts :=
                result.winners.zipWith (fun w a => Payout.mk w a) result.amounts
              ({ db1 with
                  periods :=
                    setA db1.periods idx ⟨some "paid", some txh, some payouts, none⟩ },
                afterHouse.2 ++ [LCall.resetCall])

/-- Embedding of the oldest inline `processPeriod(periodIndex)` (part_002
index.js): guard, mark `processing`, compute winners on-chain, then run the
settlement phase with its pre-disbursement invariant check. -/
def processPeriod_v2 (c : Contract) (db : Db) (idx : Int) (topN : Nat)
    (bps : Nat) (w1pct : Int) : Db × List LCall :=
  if guardBlocked (lookupA db.periods idx) then (db, [])
  else
    let db1 : Db :=
      { db with periods := setA db.periods idx ⟨some "processing", none, none, none⟩ }
    let step := computeWinnersFromOnchain_v2 c topN bps w1pct
    match step.1 with
    | .error e =>
        ({ db1 with
            periods := setA db1.periods idx ⟨some "failed", none, none, some e⟩ },
          step.2)
    | .ok result =>
      let fin := settleWithResult_v2 c bps db1 idx result
      (fin.1, step.2 ++ fin.2)

/-- A JavaScript number as the replay validator sees it: `none` models a
non-finite value (NaN or an infinity), `some q` a finite double; the replay
endpoint only compares, floors and maxes event numbers, operations that are
exact on finite doubles, all of which are rationals. -/
abbrev JsNum := Option ℚ

/-- One replay event `{time, score}` as submitted by the client. -/
structure ReplayEvent where
  time : JsNum
  score : JsNum
deriving DecidableEq, Repr

/-- One play session as stored in the in-memory `SESSIONS` map. -/
structure Session where
  used : Bool
  expiresAt : Int
deriving DecidableEq, Repr

/-- One row of the `verified_plays` table.  The `replay_hash` column holds
`keccak256(stringify(replay))`; the canonicalization is deterministic and the
hash is modelled as injective, so the hash is represented by the canonical
event list itself. -/
structure VerifiedPlay where
  session_id : String
  user_address : String
  replay_hash : List ReplayEvent
  score : Int
  survival_ticks : ℚ
deriving DecidableEq, Repr

/-- The server state touched by `POST /api/submit-replay`: the in-memory
session map, the `verified_plays` table, and the score records. -/
structure SrvState where
  sessions : List (String × Session)
  plays : List VerifiedPlay
  scores : List (String × ScoreRec)
deriving DecidableEq, Repr

/-- The request body of `POST /api/submit-replay`. -/
structure SubmitReq where
  sessionId : String
  userAddress : Option String
  replay : Option (List ReplayEvent)
  profile_name : Option String
  email : Option String
  level : Option Int
deriving DecidableEq, Repr

/-- The response of `POST /api/submit-replay`, reduced to what the claims
need: a 400 with its message, the 409 duplicate rejection, or the 200
acceptance carrying the server-trusted score and survival ticks. -/
inductive SubmitResp
  | err400 (msg : String)
  | dup409
  | ok200 (score : Int) (survival : ℚ)
deriving DecidableEq, Repr

/-- The replay validation loop: each event must have finite non-negative
time and score; the floored scores are collected, `monotonic` is cleared
whenever a time is smaller than its predecessor, and `lastTime` tracks the
most recent time (initially -1). -/
def scanEvents : List ReplayEvent → ℚ → Bool → List Int →
    Option (Bool × List Int × ℚ)
  | [], lastTime, mono, acc => some (mono, acc.reverse, lastTime)
  | ev :: rest, lastTime, mono, acc =>
    match ev.time, ev.score with
    | some t, some sc =>
      if 0 ≤ t ∧ 0 ≤ sc then
        scanEvents rest t (mono && !(decide (t < lastTime))) (Rat.floor sc :: acc)
      else none
    | _, _ => none

/-- Maximum of a list of integers, as `Math.max(...scores)` on a non-empty
list. -/
def maxOf : List Int → Int
  | [] => 0
  | x :: xs => xs.foldl max x

/-- The server-trusted scoring of a replay: `none` when some entry is
invalid, otherwise the monotonic flag, the server score (the floored last
entry score when monotonic, the maximum floored score otherwise) and the
survival ticks (the last entry time). -/
def scoreReplay (replay : List ReplayEvent) : Option (Bool × Int × ℚ) :=
  match scanEvents replay (-1) true [] with
  | none => none
  | some (mono, flScores, lastTime) =>
    some (mono, if mono then flScores.getLast?.getD 0 else maxOf flScores, lastTime)

/-- The level actually stored by a submission: a supplied level is clamped to
at least 1, otherwise the existing record level is kept (`|| 1` making a
falsy level 1). -/
def levelFor (st : SrvState) (addr : String) : Option Int → Int
  | some l => max 1 l
  | none =>
    match lookupA st.scores addr with
    | some r0 => if r0.level = 0 then 1 else r0.level
    | none => 1

/-- The score-record update performed by the accept path of
`POST /api/submit-replay`: ensure a skeleton record for the submitting
address, optionally take over the supplied display profile name and email,
bump the games counter, store the last score and keep the highest score
monotone; the level is the clamped supplied level or the existing one. -/
def replayScoreUpdate (st : SrvState) (rq : SubmitReq) (intScore : Int) :
    List (String × ScoreRec) :=
  let addr := jsLower (jsTrim (rq.userAddress.getD "unknown"))
  let intLevel := levelFor st addr rq.level
  let base :=
    match lookupA st.scores addr with
    | some r0 => r0
    | none => ⟨addr, none, none, 0, none, 0, intLevel⟩
  let pn :=
    match rq.profile_name with
    | some p => if p = "" then base.profile_name else some (jsTrim p)
    | none => base.profile_name
  let em :=
    match rq.email with
    | some e => if e = "" then base.email else some (jsTrim e)
    | none => base.email
  let newHigh :=
    if base.highest_score < intScore then intScore else base.highest_score
  let r1 : ScoreRec :=
    ⟨addr, pn, em, newHigh, some intScore, base.games_played + 1, intLevel⟩
  setA st.scores addr r1

/-- Embedding of the `POST /api/submit-replay` handler (the session-based
index.js): payload check, session lookup / used / expiry checks, replay shape
and entry validation, canonicalization and content hash, duplicate check
against `verified_plays`, then the accept path inserts the verified play,
deletes the session, and updates the score record. -/
def submitReplay (now : Int) (st : SrvState) (rq : SubmitReq) :
    SubmitResp × SrvState :=
  if rq.sessionId = "" ∨ rq.replay = none then
    (.err400 "missing sessionId or replay", st)
  else
    match lookupA st.sessions rq.sessionId with
    | none => (.err400 "session not found", st)
    | some s =>
      if s.used then (.err400 "session already used", st)
      else if s.expiresAt < now then (.err400 "session expired", st)
      else
        match rq.replay with
        | none => (.err400 "missing sessionId or replay", st)
        | some replay =>
          if replay.length = 0 ∨ 5000 < replay.length then
            (.err400 "replay length out of range", st)
          else
            match scoreReplay replay with
            | none => (.err400 "invalid entry", st)
            | some (_mono, serverScore, serverSurvival) =>
              let rHash := replay
              if st.plays.any (fun p => p.replay_hash = rHash) then
                (.dup409, st)
              else
                let addr := jsLower (jsTrim (rq.userAddress.getD "unknown"))
                let newPlay : VerifiedPlay :=
                  ⟨rq.sessionId, addr, rHash, serverScore, serverSurvival⟩
                (.ok200 serverScore serverSurvival,
                  ⟨delA st.sessions rq.sessionId, st.plays ++ [newPlay],
                    replayScoreUpdate st rq serverScore⟩)

/-- An allowed profile-name character, modelling the character class
`[\p{L}\p{N}\s\-_]` on the alphabets this backend handles. -/
def validNameChar (c : Char) : Bool :=
  c.isAlphanum || isWsChar c || c = '-' || c = '_'

/-- The state touched by the profile endpoints of the file-generation
index.js: score records plus the normalized-name ownership index. -/
structure ProfState where
  scores : List (String × ScoreRec)
  profileNames : List (String × String)
deriving DecidableEq, Repr

/-- The response of the profile endpoints, reduced to what the claims need. -/
inductive ProfResp
  | err400 (msg : String)
  | conflict409
  | ok200
deriving DecidableEq, Repr

/-- Embedding of `POST /api/update-profile` (file-generation index.js):
validate the address and the name, reject with 409 when the normalized name
is owned by another address, answer idempotently when it is already owned by
this address, and otherwise remove the previous index entry of this address (only
when it still points at this address) before installing the new one. -/
def updateProfile (st : ProfState) (user : String)
    (profile_name : Option String) : ProfResp × ProfState :=
  if user = "" then (.err400 "Missing user", st)
  else
    match profile_name with
    | none => (.err400 "Missing profile_name", st)
    | some pnBody =>
      let addr := jsLower (jsTrim user)
      if addr = "" then (.err400 "Invalid user", st)
      else
        let raw := jsTrim pnBody
        if raw.length = 0 ∨ 32 < raw.length then
          (.err400 "profile_name must be 1-32 characters", st)
        else if ¬ raw.data.all validNameChar then
          (.err400 "profile_name contains invalid characters", st)
        else
          let normalized := jsLower raw
          match lookupA st.profileNames normalized with
          | some owner =>
            if owner ≠ addr then (.conflict409, st)
            else
              let base :=
                match lookupA st.scores addr with
                | some r0 => r0
                | none => ⟨addr, none, none, 0, none, 0, 1⟩
              let r1 : ScoreRec :=
                ⟨base.user_address, some raw, base.email, base.highest_score,
                  base.last_score, base.games_played, base.level⟩
              (.ok200, { st with scores := setA st.scores addr r1 })
          | none =>
            let prevName := (lookupA st.scores addr).bind (fun r0 => r0.profile_name)
            let names1 :=
              match prevName with
              | some prev =>
                let prevNorm := jsLower prev
                if lookupA st.profileNames prevNorm = some addr then
                  delA st.profileNames prevNorm
                else st.profileNames
              | none => st.profileNames
            let base :=
              match lookupA st.scores addr with
              | some r0 => r0
              | none => ⟨addr, none, none, 0, none, 0, 1⟩
            let r1 : ScoreRec :=
              ⟨base.user_address, some raw, base.email, base.highest_score,
                base.last_score, base.games_played, base.level⟩
            (.ok200,
              ⟨setA st.scores addr r1, setA names1 normalized addr⟩)

/-- Embedding of `POST /api/submit-score` (file-generation index.js): ensure
a skeleton record, optionally update the display profile name after
validation (the `profileNames` ownership index is deliberately not touched
here), and update the gameplay statistics, keeping the highest score
monotone. -/
def submitScore (st : ProfState) (user : String) (score : Int)
    (profile_name : Option String) (email : Option String) :
    ProfResp × ProfState :=
  if user = "" then (.err400 "Missing user or score", st)
  else
    let addr := jsLower (jsTrim user)
    if addr = "" then (.err400 "Invalid user", st)
    else
      let intScore := score
      let scores0 :=
        match lookupA st.scores addr with
        | some _ => st.scores
        | none => setA st.scores addr (⟨addr, none, none, 0, none, 0, 1⟩ : ScoreRec)
      let base := (lookupA scores0 addr).getD ⟨addr, none, none, 0, none, 0, 1⟩
      let pnStep : Except ProfResp (Option String) :=
        match profile_name with
        | none => .ok base.profile_name
        | some p =>
          let raw := jsTrim p
          if raw.length = 0 ∨ 32 < raw.length then
            .error (.err400 "profile_name must be 1-32 characters")
          else if ¬ raw.data.all validNameChar then
            .error (.err400 "profile_name contains invalid characters")
          else .ok (some raw)
      match pnStep with
      | .error e => (e, { st with scores := scores0 })
      | .ok pn =>
        let em :=
          match email with
          | some e => if e = "" then base.email else some (jsTrim e)
          | none => base.email
        let newHigh :=
          if base.highest_score < intScore then intScore else base.highest_score
        let r1 : ScoreRec :=
          ⟨base.user_address, pn, em, newHigh, some intScore,
            base.games_played + 1, base.level⟩
        (.ok200, { st with scores := setA scores0 addr r1 })

/-! Helper lemmas about the primitives of the embedding. -/

theorem lookupA_setA_self {α β : Type} [DecidableEq α] (l : List (α × β))
    (k : α) (v : β) : lookupA (setA l k v) k = some v := by
  induction l with
  | nil => simp [setA, lookupA]
  | cons hd tl ih =>
    obtain ⟨k1, v1⟩ := hd
    by_cases h : k1 = k
    · simp [setA, lookupA, h]
    · simp [setA, lookupA, h, ih]

theorem lookupA_setA_ne {α β : Type} [DecidableEq α] (l : List (α × β))
    (k k2 : α) (v : β) (h : k2 ≠ k) :
    lookupA (setA l k v) k2 = lookupA l k2 := by
  induction l with
  | nil =>
    simp only [setA, lookupA]
    exact if_neg (fun hh => h hh.symm)
  | cons hd tl ih =>
    obtain ⟨k1, v1⟩ := hd
    simp only [setA]
    by_cases h1 : k1 = k
    · rw [if_pos h1]
      simp only [lookupA]
      have h2 : ¬ k1 = k2 := fun hh => h (hh ▸ h1)
      rw [if_neg h2, if_neg h2]
    · rw [if_neg h1]
      simp only [lookupA]
      by_cases h2 : k1 = k2
      · rw [if_pos h2, if_pos h2]
      · rw [if_neg h2, if_neg h2, ih]

theorem lookupA_delA {α β : Type} [DecidableEq α] (l : List (α × β))
    (k k2 : α) :
    lookupA (delA l k) k2 = if k2 = k then none else lookupA l k2 := by
  induction l with
  | nil => simp [delA, lookupA]
  | cons hd tl ih =>
    obtain ⟨k1, v1⟩ := hd
    simp only [delA]
    by_cases h1 : k1 = k
    · rw [if_pos h1]
      rw [ih]
      by_cases h2 : k2 = k
      · rw [if_pos h2, if_pos h2]
      · rw [if_neg h2, if_neg h2]
        simp only [lookupA]
        have h3 : ¬ k1 = k2 := fun hh => h2 (hh ▸ h1)
        rw [if_neg h3]
    · rw [if_neg h1]
      simp only [lookupA]
      by_cases h2 : k1 = k2
      · have h3 : ¬ k2 = k := fun hh => h1 (h2.trans hh)
        rw [if_pos h2, if_neg h3, if_pos h2]
      · rw [if_neg h2]
        rw [ih]
        by_cases h3 : k2 = k
        · rw [if_pos h3, if_pos h3]
        · rw [if_neg h3, if_neg h3]
          simp only [lookupA, if_neg h2]

theorem lookupA_mem {α β : Type} [DecidableEq α] (l : List (α × β)) (k : α)
    (v : β) (h : lookupA l k = some v) : (k, v) ∈ l := by
  induction l with
  | nil => simp [lookupA] at h
  | cons hd tl ih =>
    obtain ⟨k1, v1⟩ := hd
    by_cases h1 : k1 = k
    · subst h1
      simp [lookupA] at h
      simp [h]
    · simp [lookupA, h1] at h
      exact List.mem_cons_of_mem _ (ih h)

theorem lookupA_eq_of_mem_nodup {α β : Type} [DecidableEq α]
    (l : List (α × β)) (k : α) (v : β) (hmem : (k, v) ∈ l)
    (hnd : (l.map Prod.fst).Nodup) : lookupA l k = some v := by
  induction l with
  | nil => cases hmem
  | cons hd tl ih =>
    obtain ⟨k1, v1⟩ := hd
    rcases List.mem_cons.mp hmem with heq | hmem2
    · cases heq
      simp [lookupA]
    · rw [List.map_cons, List.nodup_cons] at hnd
      have hk1 : k1 ≠ k := by
        intro hk
        apply hnd.1
        have h6 := List.mem_map_of_mem Prod.fst hmem2
        rw [hk]
        exact h6
      simp only [lookupA, if_neg hk1]
      exact ih hmem2 hnd.2

theorem mem_insertDescBy {α : Type} (key : α → Int) (x y : α) (l : List α) :
    y ∈ insertDescBy key x l ↔ y = x ∨ y ∈ l := by
  induction l with
  | nil => simp [insertDescBy]
  | cons z zs ih =>
    by_cases h : key x < key z
    · simp [insertDescBy, h, ih]
      tauto
    · simp [insertDescBy, h]

theorem mem_sortDescBy {α : Type} (key : α → Int) (y : α) (l : List α) :
    y ∈ sortDescBy key l ↔ y ∈ l := by
  induction l with
  | nil => simp [sortDescBy]
  | cons z zs ih =>
    simp [sortDescBy, mem_insertDescBy, ih]

theorem mem_rankify (e : LBEntry) (i : Nat) (l : List ScoreRec)
    (h : e ∈ rankify i l) :
    ∃ p ∈ l, e.user_address = p.user_address ∧ e.score = p.highest_score := by
  induction l generalizing i with
  | nil => cases h
  | cons p ps ih =>
    rcases List.mem_cons.mp h with heq | hmem
    · exact ⟨p, List.mem_cons_self .., by subst heq; exact ⟨rfl, rfl⟩⟩
    · obtain ⟨q, hq, he⟩ := ih (i + 1) hmem
      exact ⟨q, List.mem_cons_of_mem _ hq, he⟩

theorem le_foldl_max_init (l : List Int) (a : Int) : a ≤ l.foldl max a := by
  induction l generalizing a with
  | nil => simp
  | cons x xs ih => exact le_trans (le_max_left a x) (ih (max a x))

theorem le_foldl_max_of_mem (l : List Int) (a x : Int) (hx : x ∈ l) :
    x ≤ l.foldl max a := by
  induction l generalizing a with
  | nil => cases hx
  | cons y ys ih =>
    rcases List.mem_cons.mp hx with rfl | h
    · exact le_trans (le_max_right a x) (le_foldl_max_init ys (max a x))
    · exact ih (max a y) h

theorem foldl_max_mem (l : List Int) (a : Int) :
    l.foldl max a = a ∨ l.foldl max a ∈ l := by
  induction l generalizing a with
  | nil => left; rfl
  | cons x xs ih =>
    rcases ih (max a x) with h | h
    · rcases max_choice a x with he | he
      · left
        rw [List.foldl_cons, h, he]
      · right
        rw [List.foldl_cons, h, he]
        exact List.mem_cons_self ..
    · right
      exact List.mem_cons_of_mem _ h

theorem maxOf_mem (l : List Int) (h : l ≠ []) : maxOf l ∈ l := by
  match l with
  | x :: xs =>
    rcases foldl_max_mem xs x with h1 | h1
    · rw [maxOf, h1]
      exact List.mem_cons_self ..
    · rw [maxOf]
      exact List.mem_cons_of_mem _ h1

theorem le_maxOf (l : List Int) (x : Int) (hx : x ∈ l) : x ≤ maxOf l := by
  match l with
  | y :: ys =>
    rcases List.mem_cons.mp hx with rfl | h
    · exact le_foldl_max_init ys x
    · exact le_foldl_max_of_mem ys y x h

theorem ediv_add_ediv_le (a b c : Int) (hc : 0 < c) :
    a / c + b / c ≤ (a + b) / c := by
  rw [Int.le_ediv_iff_mul_le hc, Int.add_mul]
  exact Int.add_le_add (Int.ediv_mul_le a hc.ne') (Int.ediv_mul_le b hc.ne')

/-! Arithmetic lemmas for the payout computations. -/

theorem ediv_add_ediv_le2 (a b c : Int) (hc : 0 < c) :
    a / c + b / c ≤ (a + b) / c := ediv_add_ediv_le a b c hc

theorem bumpHead_sum (r : Int) (l : List Int) (h : l ≠ []) :
    (bumpHead r l).sum = l.sum + r := by
  match l with
  | a :: rest => simp [bumpHead]; ring

theorem bumpFirst_sum (r : Nat) (l : List Nat) :
    (bumpFirst r l).sum = l.sum + min r l.length := by
  induction l generalizing r with
  | nil => simp [bumpFirst]
  | cons x xs ih =>
    cases r with
    | zero => simp [bumpFirst]
    | succ r =>
      simp only [bumpFirst, List.sum_cons, ih, List.length_cons]
      omega

theorem bumpFirst_replicate (r n b : Nat) (h : r ≤ n) :
    bumpFirst r (List.replicate n b) =
      List.replicate r (b + 1) ++ List.replicate (n - r) b := by
  induction r generalizing n with
  | zero =>
    match n with
    | 0 => simp [bumpFirst]
    | n + 1 => simp [List.replicate_succ, bumpFirst]
  | succ r ih =>
    match n with
    | 0 => omega
    | n + 1 =>
      rw [List.replicate_succ]
      rw [show bumpFirst (r + 1) (b :: List.replicate n b) =
        (b + 1) :: bumpFirst r (List.replicate n b) from rfl]
      rw [ih n (by omega)]
      rw [show List.replicate (r + 1) (b + 1) =
        (b + 1) :: List.replicate r (b + 1) from rfl]
      simp [Nat.succ_sub_succ]

theorem sum_tdiv_le_tdiv_sum (pp T : Int) (hpp : 0 ≤ pp) (hT : 0 < T) :
    ∀ ps : List Int, (∀ p ∈ ps, 0 ≤ p) →
      (ps.map (fun p => Int.tdiv (pp * p) T)).sum ≤ Int.tdiv (pp * ps.sum) T := by
  intro ps
  induction ps with
  | nil =>
    intro _
    simp [Int.zero_tdiv]
  | cons p ps ih =>
    intro hps
    have hp : 0 ≤ p := hps p (List.mem_cons_self ..)
    have hps2 : ∀ q ∈ ps, 0 ≤ q := fun q hq => hps q (List.mem_cons_of_mem _ hq)
    have hsum : 0 ≤ ps.sum := List.sum_nonneg hps2
    have h1 := ih hps2
    rw [List.map_cons, List.sum_cons, List.sum_cons]
    have e1 : Int.tdiv (pp * p) T = pp * p / T :=
      Int.tdiv_eq_ediv (mul_nonneg hpp hp) hT.le
    have e2 : Int.tdiv (pp * (p + ps.sum)) T = pp * (p + ps.sum) / T :=
      Int.tdiv_eq_ediv (mul_nonneg hpp (add_nonneg hp hsum)) hT.le
    have e3 : Int.tdiv (pp * ps.sum) T = pp * ps.sum / T :=
      Int.tdiv_eq_ediv (mul_nonneg hpp hsum) hT.le
    rw [e1, e2]
    rw [e3] at h1
    calc pp * p / T + (List.map (fun q => Int.tdiv (pp * q) T) ps).sum
        ≤ pp * p / T + pp * ps.sum / T := add_le_add_left h1 _
      _ ≤ (pp * p + pp * ps.sum) / T := ediv_add_ediv_le _ _ _ hT
      _ = pp * (p + ps.sum) / T := by rw [mul_add]

theorem tdiv_pct_le (pp S T : Int) (hpp : 0 ≤ pp) (hS : 0 ≤ S) (hST : S ≤ T)
    (hT : 0 < T) : Int.tdiv (pp * S) T ≤ pp := by
  rw [Int.tdiv_eq_ediv (mul_nonneg hpp hS) hT.le]
  calc pp * S / T ≤ pp * T / T :=
        Int.ediv_le_ediv hT (mul_le_mul_of_nonneg_left hST hpp)
    _ = pp := Int.mul_ediv_cancel pp hT.ne'

theorem payoutLoop_sum_le (pp : Int) (hpp : 0 ≤ pp) :
    ∀ (ds : List (String × Int)) (pcts : List Nat),
      ((payoutLoop pp ds pcts).map Prod.snd).sum ≤
        Int.tdiv (pp * (pcts.sum : Int)) 100 := by
  intro ds
  induction ds with
  | nil =>
    intro pcts
    simp only [payoutLoop, List.map_nil, List.sum_nil]
    exact Int.tdiv_nonneg (mul_nonneg hpp (Int.natCast_nonneg _)) (by norm_num)
  | cons d ds ih =>
    intro pcts
    have hq : (0 : Int) ≤ (pcts.headD 0 : Nat) := Int.natCast_nonneg _
    have hqs : (0 : Int) ≤ (pcts.tail.sum : Nat) := Int.natCast_nonneg _
    have hsplit : ((pcts.headD 0 : Nat) : Int) + ((pcts.tail.sum : Nat) : Int) =
        ((pcts.sum : Nat) : Int) := by
      cases pcts <;> simp [Nat.cast_add]
    simp only [payoutLoop]
    by_cases h0 : 0 < Int.tdiv (pp * ((pcts.headD 0 : Nat) : Int)) 100
    · rw [if_pos h0]
      rw [List.map_cons, List.sum_cons]
      have h1 := ih pcts.tail
      have e1 : Int.tdiv (pp * ((pcts.headD 0 : Nat) : Int)) 100 =
          pp * ((pcts.headD 0 : Nat) : Int) / 100 :=
        Int.tdiv_eq_ediv (mul_nonneg hpp hq) (by norm_num)
      have e2 : Int.tdiv (pp * ((pcts.tail.sum : Nat) : Int)) 100 =
          pp * ((pcts.tail.sum : Nat) : Int) / 100 :=
        Int.tdiv_eq_ediv (mul_nonneg hpp hqs) (by norm_num)
      have e3 : Int.tdiv (pp * ((pcts.sum : Nat) : Int)) 100 =
          pp * ((pcts.sum : Nat) : Int) / 100 :=
        Int.tdiv_eq_ediv (mul_nonneg hpp (Int.natCast_nonneg _)) (by norm_num)
      rw [e1, e3]
      rw [e2] at h1
      calc pp * ((pcts.headD 0 : Nat) : Int) / 100 +
            ((payoutLoop pp ds pcts.tail).map Prod.snd).sum
          ≤ pp * ((pcts.headD 0 : Nat) : Int) / 100 +
            pp * ((pcts.tail.sum : Nat) : Int) / 100 := add_le_add_left h1 _
        _ ≤ (pp * ((pcts.headD 0 : Nat) : Int) +
            pp * ((pcts.tail.sum : Nat) : Int)) / 100 :=
            ediv_add_ediv_le _ _ _ (by norm_num)
        _ = pp * ((pcts.sum : Nat) : Int) / 100 := by rw [← mul_add, hsplit]
    · rw [if_neg h0]
      have h1 := ih pcts.tail
      calc ((payoutLoop pp ds pcts.tail).map Prod.snd).sum
          ≤ Int.tdiv (pp * ((pcts.tail.sum : Nat) : Int)) 100 := h1
        _ ≤ Int.tdiv (pp * ((pcts.sum : Nat) : Int)) 100 := by
            have e2 : Int.tdiv (pp * ((pcts.tail.sum : Nat) : Int)) 100 =
                pp * ((pcts.tail.sum : Nat) : Int) / 100 :=
              Int.tdiv_eq_ediv (mul_nonneg hpp hqs) (by norm_num)
            have e3 : Int.tdiv (pp * ((pcts.sum : Nat) : Int)) 100 =
                pp * ((pcts.sum : Nat) : Int) / 100 :=
              Int.tdiv_eq_ediv (mul_nonneg hpp (Int.natCast_nonneg _)) (by norm_num)
            rw [e2, e3]
            apply Int.ediv_le_ediv (by norm_num)
            have hmul : pp * ((pcts.tail.sum : Nat) : Int) ≤
                pp * (((pcts.headD 0 : Nat) : Int) + ((pcts.tail.sum : Nat) : Int)) :=
              mul_le_mul_of_nonneg_left (le_add_of_nonneg_left hq) hpp
            rw [hsplit] at hmul
            exact hmul

theorem length_insertDescBy {α : Type} (key : α → Int) (x : α) (l : List α) :
    (insertDescBy key x l).length = l.length + 1 := by
  induction l with
  | nil => rfl
  | cons y ys ih =>
    by_cases h : key x < key y
    · simp [insertDescBy, h, ih]
    · simp [insertDescBy, h]

theorem length_sortDescBy {α : Type} (key : α → Int) (l : List α) :
    (sortDescBy key l).length = l.length := by
  induction l with
  | nil => rfl
  | cons x xs ih => simp [sortDescBy, length_insertDescBy, ih]

theorem splitForV2_sum_le (n : Nat) : (splitForV2 n).sum ≤ 100 := by
  unfold splitForV2
  by_cases h1 : n = 1
  · simp [h1]
  · rw [if_neg h1]
    by_cases h2 : n = 2
    · simp [h2]
    · rw [if_neg h2]
      by_cases h3 : n = 3
      · simp [h3]
      · rw [if_neg h3]
        rw [List.sum_replicate, smul_eq_mul]
        calc n * (100 / n) = 100 / n * n := Nat.mul_comm ..
          _ ≤ 100 := Nat.div_mul_le_self 100 n

theorem splitFor_sum_le (n : Nat) : (splitFor n).sum ≤ 100 := by
  unfold splitFor
  by_cases h1 : n = 1
  · simp [h1]
  · rw [if_neg h1]
    by_cases h2 : n = 2
    · simp [h2]
    · rw [if_neg h2]
      by_cases h3 : n = 3
      · simp [h3]
      · rw [if_neg h3]
        rw [bumpFirst_sum, List.sum_replicate, smul_eq_mul, List.length_replicate]
        have hmin : min (100 - 100 / n * n) n ≤ 100 - 100 / n * n :=
          Nat.min_le_left ..
        have hd := Nat.div_mul_le_self 100 n
        have hcomm : n * (100 / n) = 100 / n * n := Nat.mul_comm ..
        omega

theorem splitFor_shape (n : Nat) (h : 3 < n) :
    splitFor n =
      List.replicate (100 % n) (100 / n + 1) ++
        List.replicate (n - 100 % n) (100 / n) := by
  unfold splitFor
  rw [if_neg (by omega), if_neg (by omega), if_neg (by omega)]
  have h2 : 100 - 100 / n * n = 100 % n := by
    have h4 := Nat.div_add_mod 100 n
    have hcomm : n * (100 / n) = 100 / n * n := Nat.mul_comm ..
    omega
  rw [h2]
  exact bumpFirst_replicate _ _ _ (Nat.mod_lt _ (by omega)).le

theorem splitFor_sum_eq (n : Nat) (h : 3 < n) : (splitFor n).sum = 100 := by
  rw [splitFor_shape n h]
  rw [List.sum_append, List.sum_replicate, List.sum_replicate, smul_eq_mul,
    smul_eq_mul]
  have h3 : 100 % n < n := Nat.mod_lt _ (by omega)
  have h4 := Nat.div_add_mod 100 n
  have e1 : 100 % n * (100 / n + 1) = 100 % n * (100 / n) + 100 % n := by ring
  have e2 : (n - 100 % n) * (100 / n) = n * (100 / n) - 100 % n * (100 / n) :=
    Nat.sub_mul ..
  have e3 : 100 % n * (100 / n) ≤ n * (100 / n) := Nat.mul_le_mul_right _ h3.le
  have e5 : n * (100 / n) = 100 / n * n := Nat.mul_comm ..
  omega

theorem offPercents_nonneg (m : Nat) : ∀ p ∈ offPercents m, 0 ≤ p := by
  intro p hp
  unfold offPercents at hp
  have hp2 := List.take_subset _ _ hp
  rcases List.mem_append.mp hp2 with h | h
  · have h2 : p = 48 ∨ p = 29 ∨ p = 9 := by simpa using h
    rcases h2 with rfl | rfl | rfl <;> norm_num
  · rw [List.eq_of_mem_replicate h]
    norm_num

theorem offPercents_head (m : Nat) (h : 1 ≤ m) :
    ∃ rest, offPercents m = 48 :: rest := by
  unfold offPercents
  match m, h with
  | m + 1, _ => exact ⟨_, by rw [List.cons_append, List.take_succ_cons]⟩

theorem offPercents_sum_pos (m : Nat) (h : 1 ≤ m) : 0 < (offPercents m).sum := by
  obtain ⟨rest, hr⟩ := offPercents_head m h
  have hnn : ∀ p ∈ rest, (0 : Int) ≤ p := by
    intro p hp
    exact offPercents_nonneg m p (by rw [hr]; exact List.mem_cons_of_mem _ hp)
  have hs := List.sum_nonneg hnn
  rw [hr, List.sum_cons]
  omega

theorem offAmounts_sum_le (pp : Int) (m : Nat) (hpp : 0 ≤ pp) (hm : 1 ≤ m) :
    (offAmounts pp m).sum ≤ pp := by
  have hTpos : 0 < (offPercents m).sum := offPercents_sum_pos m hm
  have hsum0 :
      ((offPercents m).map
        (fun p => Int.tdiv (pp * p) (offPercents m).sum)).sum ≤ pp := by
    calc ((offPercents m).map
          (fun p => Int.tdiv (pp * p) (offPercents m).sum)).sum
        ≤ Int.tdiv (pp * (offPercents m).sum) (offPercents m).sum :=
          sum_tdiv_le_tdiv_sum pp _ hpp hTpos (offPercents m) (offPercents_nonneg m)
      _ ≤ pp := by
          rw [Int.tdiv_eq_ediv (mul_nonneg hpp hTpos.le) hTpos.le,
            Int.mul_ediv_cancel pp hTpos.ne']
  have heq : offAmounts pp m =
      (if 0 < pp - ((offPercents m).map
          (fun p => Int.tdiv (pp * p) (offPercents m).sum)).sum
       then bumpHead (pp - ((offPercents m).map
          (fun p => Int.tdiv (pp * p) (offPercents m).sum)).sum)
          ((offPercents m).map (fun p => Int.tdiv (pp * p) (offPercents m).sum))
       else (offPercents m).map
          (fun p => Int.tdiv (pp * p) (offPercents m).sum)) := rfl
  rw [heq]
  by_cases hrem : 0 < pp - ((offPercents m).map
      (fun p => Int.tdiv (pp * p) (offPercents m).sum)).sum
  · rw [if_pos hrem]
    have hne : (offPercents m).map
        (fun p => Int.tdiv (pp * p) (offPercents m).sum) ≠ [] := by
      obtain ⟨rest, hr⟩ := offPercents_head m hm
      rw [hr]
      simp
    rw [bumpHead_sum _ _ hne]
    omega
  · rw [if_neg hrem]
    exact hsum0

theorem payout_entries_le (pp : Int) (hpp : 0 ≤ pp) (ds : List (String × Int))
    (pcts : List Nat) (hsum : pcts.sum ≤ 100) :
    ((payoutLoop pp ds pcts).map Prod.snd).sum ≤ pp := by
  calc ((payoutLoop pp ds pcts).map Prod.snd).sum
      ≤ Int.tdiv (pp * (pcts.sum : Int)) 100 := payoutLoop_sum_le pp hpp ds pcts
    _ ≤ pp := tdiv_pct_le pp _ 100 hpp (Int.natCast_nonneg _)
        (by exact_mod_cast hsum) (by norm_num)

/-- The off-chain winner computation never allocates more than the pool: the
payout amounts plus the returned house fee stay within the (non-negative)
pool balance it read. -/
theorem offchain_invariant (c : Contract) (scores : List ScoreRec)
    (hpb : 0 ≤ (computeWinnersFromOffchain c scores).1.poolBalance) :
    (computeWinnersFromOffchain c scores).1.amounts.sum +
      (computeWinnersFromOffchain c scores).1.house ≤
      (computeWinnersFromOffchain c scores).1.poolBalance := by
  unfold computeWinnersFromOffchain at hpb ⊢
  match hc : c.poolBalanceRes with
  | .error e =>
    dsimp only
    simp
  | .ok pb =>
    rw [hc] at hpb
    dsimp only at hpb ⊢
    by_cases h0 : pb = 0
    · rw [if_pos h0] at hpb ⊢
      simp
    · rw [if_neg h0] at hpb ⊢
      by_cases hs : scores.isEmpty
      · rw [if_pos hs] at hpb ⊢
        simpa using hpb
      · rw [if_neg hs] at hpb ⊢
        dsimp only at hpb ⊢
        have hfee0 : 0 ≤ Int.tdiv (pb * 30) 100 :=
          Int.tdiv_nonneg (mul_nonneg hpb (by norm_num)) (by norm_num)
        have hfee : Int.tdiv (pb * 30) 100 ≤ pb :=
          tdiv_pct_le pb 30 100 hpb (by norm_num) (by norm_num) (by norm_num)
        have hm : 1 ≤ ((sortDescBy (fun s => s.highest_score) scores).take 10).length := by
          rw [List.length_take, length_sortDescBy]
          have hne : scores ≠ [] := fun hh => by
            rw [hh] at hs
            exact hs rfl
          have := List.length_pos.mpr hne
          omega
        have hsum := offAmounts_sum_le (pb - Int.tdiv (pb * 30) 100)
          ((sortDescBy (fun s => s.highest_score) scores).take 10).length
          (by omega) hm
        omega

/-- The file-generation on-chain winner computation never allocates more than
the pool for any house-fee setting of at most 10000 basis points. -/
theorem onchain_lb_invariant (c : Contract) (topN bps : Nat) (r : OnResult)
    (hbps : bps ≤ 10000)
    (hres : (computeWinnersFromOnchain_lb c topN bps).1 = .ok r)
    (hpb : 0 ≤ r.poolBalance) :
    r.amounts.sum + Int.tdiv (r.poolBalance * bps) 10000 ≤ r.poolBalance := by
  unfold computeWinnersFromOnchain_lb at hres
  match hc : c.playersRes with
  | .error e =>
    rw [hc] at hres
    dsimp only at hres
    simp at hres
  | .ok players =>
    rw [hc] at hres
    dsimp only at hres
    by_cases hp : players.isEmpty
    · rw [if_pos hp] at hres
      dsimp only at hres
      injection hres with h
      subst h
      simp [Int.zero_tdiv]
    · rw [if_neg hp] at hres
      match hd : allDeposits c players with
      | .error e =>
        rw [hd] at hres
        dsimp only at hres
        simp at hres
      | .ok deposits =>
        rw [hd] at hres
        dsimp only at hres
        match hb : c.poolBalanceRes with
        | .error e =>
          rw [hb] at hres
          dsimp only at hres
          simp at hres
        | .ok pb =>
          rw [hb] at hres
          dsimp only at hres
          by_cases h0 : pb = 0
          · rw [if_pos h0] at hres
            dsimp only at hres
            injection hres with h
            subst h
            simp [Int.zero_tdiv]
          · rw [if_neg h0] at hres
            dsimp only at hres
            injection hres with h
            subst h
            have hpb2 : (0 : Int) ≤ pb := hpb
            have hfee0 : 0 ≤ Int.tdiv (pb * bps) 10000 :=
              Int.tdiv_nonneg (mul_nonneg hpb2 (Int.natCast_nonneg _)) (by norm_num)
            have hfee : Int.tdiv (pb * bps) 10000 ≤ pb :=
              tdiv_pct_le pb bps 10000 hpb2 (Int.natCast_nonneg _)
                (by exact_mod_cast hbps) (by norm_num)
            have hsum := payout_entries_le (pb - Int.tdiv (pb * bps) 10000)
              (by omega) ((sortDescBy Prod.snd deposits).take topN)
              (splitFor topN) (splitFor_sum_le topN)
            dsimp only
            omega

/-- The oldest inline on-chain winner computation never allocates more than
the pool for any house-fee setting of at most 10000 basis points. -/
theorem onchain_v2_invariant (c : Contract) (topN bps : Nat) (w1pct : Int)
    (r : OnResult) (hbps : bps ≤ 10000)
    (hres : (computeWinnersFromOnchain_v2 c topN bps w1pct).1 = .ok r)
    (hpb : 0 ≤ r.poolBalance) :
    r.amounts.sum + Int.tdiv (r.poolBalance * bps) 10000 ≤ r.poolBalance := by
  unfold computeWinnersFromOnchain_v2 at hres
  match hc : c.playersRes with
  | .error e =>
    rw [hc] at hres
    dsimp only at hres
    simp at hres
  | .ok players =>
    rw [hc] at hres
    dsimp only at hres
    by_cases hp : players.isEmpty
    · rw [if_pos hp] at hres
      dsimp only at hres
      injection hres with h
      subst h
      simp [Int.zero_tdiv]
    · rw [if_neg hp] at hres
      match hb : c.poolBalanceRes with
      | .error e =>
        rw [hb] at hres
        dsimp only at hres
        simp at hres
      | .ok pb =>
        rw [hb] at hres
        dsimp only at hres
        by_cases h0 : pb = 0
        · rw [if_pos h0] at hres
          dsimp only at hres
          injection hres with h
          subst h
          simp [Int.zero_tdiv]
        · rw [if_neg h0] at hres
          dsimp only at hres
          injection hres with h
          subst h
          have hpb2 : (0 : Int) ≤ pb := hpb
          have hfee0 : 0 ≤ Int.tdiv (pb * bps) 10000 :=
            Int.tdiv_nonneg (mul_nonneg hpb2 (Int.natCast_nonneg _)) (by norm_num)
          have hfee : Int.tdiv (pb * bps) 10000 ≤ pb :=
            tdiv_pct_le pb bps 10000 hpb2 (Int.natCast_nonneg _)
              (by exact_mod_cast hbps) (by norm_num)
          have hsum := payout_entries_le (pb - Int.tdiv (pb * bps) 10000)
            (by omega)
            ((sortDescBy Prod.snd (players.map (fun p =>
              (p, match c.depositRes p with | .ok d => d | .error _ => 0)))).take topN)
            (splitForV2 topN) (splitForV2_sum_le topN)
          dsimp only
          omega

/-- The off-chain winner computation always performs exactly one ledger
call, the pool-balance read. -/
theorem offchain_trace (c : Contract) (scores : List ScoreRec) :
    (computeWinnersFromOffchain c scores).2 = [LCall.poolBalanceRead] := by
  unfold computeWinnersFromOffchain
  match c.poolBalanceRes with
  | .error e => rfl
  | .ok pb =>
    by_cases h0 : pb = 0
    · simp [h0]
    · by_cases hs : scores.isEmpty
      · simp [h0, hs]
      · simp [h0, hs]

/-- The off-chain winner list is empty when the pool-balance read fails,
the balance is zero, or there are no score records. -/
theorem offchain_winners_empty (c : Contract) (scores : List ScoreRec)
    (hcase : (∃ e, c.poolBalanceRes = .error e) ∨ c.poolBalanceRes = .ok 0 ∨
      scores = []) :
    (computeWinnersFromOffchain c scores).1.winners = [] := by
  unfold computeWinnersFromOffchain
  match hc : c.poolBalanceRes with
  | .error e => rfl
  | .ok pb =>
    rcases hcase with ⟨e, he⟩ | h0 | hs
    · rw [hc] at he
      exact Except.noConfusion he
    · rw [hc] at h0
      injection h0 with h0
      subst h0
      simp
    · subst hs
      dsimp only
      by_cases h0 : pb = 0
      · simp [h0]
      · simp [h0]

/-- The Postgres-generation processPeriod never issues a payHouse call: the
amounts it parses from the absent house1/house2 fields are both zero. -/
theorem v3_no_payHouse (c : Contract) (db : Db) (idx : Int) (h1 h2 : Int) :
    LCall.payHouseCall h1 h2 ∉ (processPeriod_v3 c db idx).2 := by
  unfold processPeriod_v3
  by_cases hg : guardBlocked (lookupA db.periods idx) = true
  · simp [hg]
  · rw [if_neg hg]
    dsimp only
    have ht := offchain_trace c (db.scores.map Prod.snd)
    by_cases hw :
        (computeWinnersFromOffchain c (db.scores.map Prod.snd)).1.winners.isEmpty = true
    · simp [hw, ht]
    · rw [if_neg hw]
      match c.payPlayersRes with
      | .error e => simp [ht]
      | .ok txh =>
        dsimp only
        unfold v3HousePhase
        rw [if_neg (by simp)]
        unfold v3ResetPhase
        by_cases hr : c.hasReset = true
        · simp [hr, ht]
        · simp [hr, ht]

/-- A sample contract whose every operation succeeds, with three players. -/
def cOkW : Contract :=
  ⟨.ok 1000, .ok ["w1", "w2", "w3"],
    fun p => if p = "w1" then .ok 30 else if p = "w2" then .ok 20 else .ok 10,
    .ok "0xwin", .ok "0xhouse", .ok "0xreset", true, true⟩

/-- A sample database whose period 0 is already paid. -/
def dbGuardW : Db := ⟨[], [(0, ⟨some "paid", none, none, none⟩)]⟩

/-- A sample database with a single positive score record. -/
def dbOneScore : Db := ⟨[("alice", ⟨"alice", none, none, 5, none, 1, 1⟩)], []⟩

/-- Claim C1: when the stored PeriodRecord of the period has status
`processing` or `paid`, every generation of processPeriod returns immediately
with no side effects: the database is unchanged and no ledger call is made,
so calling settle twice in a row makes the second call a no-op and a period
is never double-paid. -/
theorem claim1_settle_idempotent_guard (c : Contract) (db : Db) (idx : Int)
    (p : PeriodRec) (topN bps : Nat) (w1pct : Int)
    (hfound : lookupA db.periods idx = some p)
    (hstatus : p.status = some "processing" ∨ p.status = some "paid") :
    processPeriod_v3 c db idx = (db, []) ∧
    processPeriod_lb c db idx topN bps = (db, []) ∧
    processPeriod_v2 c db idx topN bps w1pct = (db, []) := by
  have hg : guardBlocked (lookupA db.periods idx) = true := by
    rw [hfound]
    rcases hstatus with h | h <;> simp [guardBlocked, h]
  refine ⟨?_, ?_, ?_⟩ <;>
    simp [processPeriod_v3, processPeriod_lb, processPeriod_v2, hg]

/-- Witness for C1 at a concrete database whose period 0 is paid. -/
theorem claim1_witness :
    processPeriod_v3 cOkW dbGuardW 0 = (dbGuardW, []) ∧
    processPeriod_lb cOkW dbGuardW 0 3 100 = (dbGuardW, []) ∧
    processPeriod_v2 cOkW dbGuardW 0 3 100 50 = (dbGuardW, []) :=
  claim1_settle_idempotent_guard cOkW dbGuardW 0
    ⟨some "paid", none, none, none⟩ 3 100 50 (by decide) (Or.inr (by decide))

/-- Claim C10: when the winner computation comes back empty — the
pool-balance read fails, the pool balance is zero, or there are no score
records — the Postgres-generation processPeriod marks the period `paid` with
an empty payout list, and the only ledger call made is the pool-balance
read: no payment, house-fee or reset call happens. -/
theorem claim10_empty_winners_paid (c : Contract) (db : Db) (idx : Int)
    (hguard : guardBlocked (lookupA db.periods idx) = false)
    (hcase : (∃ e, c.poolBalanceRes = .error e) ∨ c.poolBalanceRes = .ok 0 ∨
      db.scores = []) :
    (processPeriod_v3 c db idx).2 = [LCall.poolBalanceRead] ∧
    lookupA (processPeriod_v3 c db idx).1.periods idx =
      some ⟨some "paid", none, some [], none⟩ ∧
    (processPeriod_v3 c db idx).1.scores = db.scores := by
  have hw : (computeWinnersFromOffchain c (db.scores.map Prod.snd)).1.winners = [] := by
    apply offchain_winners_empty
    rcases hcase with h | h | h
    · exact Or.inl h
    · exact Or.inr (Or.inl h)
    · exact Or.inr (Or.inr (by rw [h]; rfl))
  have ht := offchain_trace c (db.scores.map Prod.snd)
  have hmain : processPeriod_v3 c db idx =
      (⟨db.scores,
        setA (setA db.periods idx ⟨some "processing", none, none, none⟩) idx
          ⟨some "paid", none, some [], none⟩⟩, [LCall.poolBalanceRead]) := by
    unfold processPeriod_v3
    rw [if_neg (by rw [hguard]; exact Bool.false_ne_true)]
    dsimp only
    rw [hw]
    simp only [List.isEmpty_nil, if_true]
    rw [ht]
  rw [hmain]
  exact ⟨rfl, lookupA_setA_self .., rfl⟩

/-- Witness for C10 at a contract whose pool balance is zero. -/
theorem claim10_witness :
    (processPeriod_v3 ⟨.ok 0, .ok [], fun _ => .ok 0, .ok "0xw", .ok "0xh",
        .ok "0xr", true, true⟩ dbOneScore 7).2 = [LCall.poolBalanceRead] ∧
    lookupA (processPeriod_v3 ⟨.ok 0, .ok [], fun _ => .ok 0, .ok "0xw",
        .ok "0xh", .ok "0xr", true, true⟩ dbOneScore 7).1.periods 7 =
      some ⟨some "paid", none, some [], none⟩ ∧
    (processPeriod_v3 ⟨.ok 0, .ok [], fun _ => .ok 0, .ok "0xw", .ok "0xh",
        .ok "0xr", true, true⟩ dbOneScore 7).1.scores = dbOneScore.scores :=
  claim10_empty_winners_paid _ dbOneScore 7 (by decide)
    (Or.inr (Or.inl rfl))

/-- A sample contract whose resetPayments call fails. -/
def cResetFail : Contract :=
  ⟨.ok 1000, .ok [], fun _ => .ok 0, .ok "0xwin", .ok "0xhouse",
    .error "reset reverted", true, true⟩

/-- A sample contract whose payPlayers call fails. -/
def cPayFail : Contract :=
  ⟨.ok 1000, .ok [], fun _ => .ok 0, .error "insufficient funds", .ok "0xh",
    .ok "0xr", true, true⟩

/-- Counterexample to claim C2 as stated: the resetPayments ledger call of a
settlement fails (and is attempted, as the call trace shows), yet the
Postgres-generation processPeriod records the period as `paid` with no error
field, not as `failed`. -/
theorem claim2_counterexample :
    cResetFail.resetRes = .error "reset reverted" ∧
    LCall.resetCall ∈ (processPeriod_v3 cResetFail dbOneScore 0).2 ∧
    lookupA (processPeriod_v3 cResetFail dbOneScore 0).1.periods 0 =
      some ⟨some "paid", some "0xwin", some [⟨"alice", 700⟩], none⟩ :=
  ⟨rfl, by decide, by decide⟩

/-- Claim C2 (amended): in the Postgres-generation processPeriod, a failure
of payPlayers marks the period `failed` with the error recorded and no
transaction hash (never `paid`); the house-fee payment is never invoked at
all, because processPeriod parses `house1`/`house2` fields that the winner
computation does not produce, so both amounts are zero; a resetPayments
failure is swallowed and the period is still marked `paid`; and a
pool-balance read failure ends in `paid` with an empty payout list rather
than `failed`. -/
theorem claim2_amended_failure_handling (c : Contract) (db : Db) (idx : Int)
    (hguard : guardBlocked (lookupA db.periods idx) = false) :
    (∀ e, c.payPlayersRes = .error e →
      (computeWinnersFromOffchain c (db.scores.map Prod.snd)).1.winners ≠ [] →
      lookupA (processPeriod_v3 c db idx).1.periods idx =
        some ⟨some "failed", none, none, some e⟩) ∧
    (∀ h1 h2, LCall.payHouseCall h1 h2 ∉ (processPeriod_v3 c db idx).2) ∧
    (∀ txh e, c.payPlayersRes = .ok txh → c.resetRes = .error e →
      (computeWinnersFromOffchain c (db.scores.map Prod.snd)).1.winners ≠ [] →
      ∃ pay, lookupA (processPeriod_v3 c db idx).1.periods idx =
        some ⟨some "paid", some txh, some pay, none⟩) ∧
    (∀ e, c.poolBalanceRes = .error e →
      lookupA (processPeriod_v3 c db idx).1.periods idx =
        some ⟨some "paid", none, some [], none⟩) := by
  have hgneg : ¬ guardBlocked (lookupA db.periods idx) = true := by
    rw [hguard]
    exact Bool.false_ne_true
  refine ⟨?_, fun h1 h2 => v3_no_payHouse c db idx h1 h2, ?_, ?_⟩
  · intro e hpay hw
    have hie :
        (computeWinnersFromOffchain c (db.scores.map Prod.snd)).1.winners.isEmpty = false := by
      cases hwl : (computeWinnersFromOffchain c (db.scores.map Prod.snd)).1.winners with
      | nil => exact absurd hwl hw
      | cons a l => rfl
    unfold processPeriod_v3
    rw [if_neg hgneg]
    dsimp only
    rw [hie]
    simp only [Bool.false_eq_true, if_false]
    rw [hpay]
    dsimp only
    exact lookupA_setA_self ..
  · intro txh e hpay hreset hw
    have hie :
        (computeWinnersFromOffchain c (db.scores.map Prod.snd)).1.winners.isEmpty = false := by
      cases hwl : (computeWinnersFromOffchain c (db.scores.map Prod.snd)).1.winners with
      | nil => exact absurd hwl hw
      | cons a l => rfl
    refine ⟨(computeWinnersFromOffchain c (db.scores.map Prod.snd)).1.winners.zipWith
      (fun w a => Payout.mk w a)
      (computeWinnersFromOffchain c (db.scores.map Prod.snd)).1.amounts, ?_⟩
    unfold processPeriod_v3
    rw [if_neg hgneg]
    dsimp only
    rw [hie]
    simp only [Bool.false_eq_true, if_false]
    rw [hpay]
    dsimp only
    unfold v3HousePhase
    rw [if_neg (by simp)]
    unfold v3ResetPhase
    dsimp only
    exact lookupA_setA_self ..
  · intro e hb
    have hw := offchain_winners_empty c (db.scores.map Prod.snd) (Or.inl ⟨e, hb⟩)
    unfold processPeriod_v3
    rw [if_neg hgneg]
    dsimp only
    rw [hw]
    simp only [List.isEmpty_nil, if_true]
    exact lookupA_setA_self ..

/-- Witness for the amended C2: with a failing payPlayers call and one score
record, the concrete period record is `failed` with the error recorded. -/
theorem claim2_witness :
    lookupA (processPeriod_v3 cPayFail dbOneScore 0).1.periods 0 =
      some ⟨some "failed", none, none, some "insufficient funds"⟩ :=
  (claim2_amended_failure_handling cPayFail dbOneScore 0 (by decide)).1
    "insufficient funds" rfl (by decide)

/-- A sample contract with a pool balance of 100 and one player. -/
def cBps : Contract :=
  ⟨.ok 100, .ok ["p1"], fun _ => .ok 10, .ok "0xw", .ok "0xh", .ok "0xr",
    true, true⟩

/-- Counterexample to claim C3 as stated: with a house-fee setting of 20000
basis points and pool balance 100, the winner amounts computed for the
settlement sum to 0 while the house fee alone is 200, so payouts plus house
fee exceed the pool balance; no invariant check catches this because the
winner list is empty and the settlement is simply recorded as paid. -/
theorem claim3_counterexample :
    (computeWinnersFromOnchain_v2 cBps 3 20000 50).1 =
      .ok ⟨[], [], 100, 100, 100⟩ ∧
    ¬ (([] : List Int).sum +
        Int.tdiv ((100 : Int) * ((20000 : Nat) : Int)) 10000 ≤ (100 : Int)) := by
  constructor
  · rfl
  · decide

/-- Claim C3 (amended): for every house-fee setting of at most 10000 basis
points, the computed winner amounts satisfy payouts + house fee <= pool
balance in all three winner computations, and the oldest processPeriod
checks this invariant before any disbursement call — when the check fails
the period is marked `failed` and no ledger call at all is made. -/
theorem claim3_amended_payout_invariant :
    (∀ (c : Contract) (topN bps : Nat) (w1pct : Int) (r : OnResult),
      bps ≤ 10000 → (computeWinnersFromOnchain_v2 c topN bps w1pct).1 = .ok r →
      0 ≤ r.poolBalance →
      r.amounts.sum + Int.tdiv (r.poolBalance * bps) 10000 ≤ r.poolBalance) ∧
    (∀ (c : Contract) (topN bps : Nat) (r : OnResult),
      bps ≤ 10000 → (computeWinnersFromOnchain_lb c topN bps).1 = .ok r →
      0 ≤ r.poolBalance →
      r.amounts.sum + Int.tdiv (r.poolBalance * bps) 10000 ≤ r.poolBalance) ∧
    (∀ (c : Contract) (scores : List ScoreRec),
      0 ≤ (computeWinnersFromOffchain c scores).1.poolBalance →
      (computeWinnersFromOffchain c scores).1.amounts.sum +
        (computeWinnersFromOffchain c scores).1.house ≤
        (computeWinnersFromOffchain c scores).1.poolBalance) ∧
    (∀ (c : Contract) (bps : Nat) (db1 : Db) (idx : Int) (r : OnResult),
      r.winners ≠ [] →
      r.poolBalance < r.amounts.sum + Int.tdiv (r.poolBalance * bps) 10000 →
      settleWithResult_v2 c bps db1 idx r =
        ({ db1 with periods := (setA db1.periods idx
          (⟨some "failed", none, none,
            some "Calculated payouts exceed pool balance"⟩ : PeriodRec)) }, [])) := by
  refine ⟨fun c topN bps w1pct r hbps hres hpb =>
      onchain_v2_invariant c topN bps w1pct r hbps hres hpb,
    fun c topN bps r hbps hres hpb =>
      onchain_lb_invariant c topN bps r hbps hres hpb,
    fun c scores hpb => offchain_invariant c scores hpb, ?_⟩
  intro c bps db1 idx r hw hviol
  have hie : r.winners.isEmpty = false := by
    cases hwl : r.winners with
    | nil => exact absurd hwl hw
    | cons a l => rfl
  unfold settleWithResult_v2
  rw [hie]
  simp only [Bool.false_eq_true, if_false]
  rw [if_pos hviol]

/-- An over-allocating winner result used to exercise the invariant check. -/
def rBad : OnResult := ⟨["alice"], [1000], 0, 0, 100⟩

/-- Witness for the amended C3: the settlement phase of the oldest
processPeriod, fed a result whose payouts exceed the pool, marks the period
`failed` and makes no ledger call. -/
theorem claim3_witness :
    settleWithResult_v2 cOkW 100 ⟨[], []⟩ 0 rBad =
      ({ (⟨[], []⟩ : Db) with periods := (setA ([] : List (Int × PeriodRec)) 0
        (⟨some "failed", none, none,
          some "Calculated payouts exceed pool balance"⟩ : PeriodRec)) }, []) :=
  claim3_amended_payout_invariant.2.2.2 cOkW 100 ⟨[], []⟩ 0 rBad
    (by decide) (by decide)

/-- Claim C4: the percentage split of computeWinnersFromOnchain is the fixed
table [100], [60, 40], [50, 30, 20] for 1, 2 and 3 winners; for more than 3
winners the percentages are distributed evenly with the integer remainder
assigned one unit at a time to the earliest entries, so they always sum to
exactly 100; and a 3-winner split of a 1000-unit payout pool pays exactly
[500, 300, 200], each winner receiving payoutPool * pct / 100 in exact
integer arithmetic. -/
theorem claim4_split_table :
    splitFor 1 = [100] ∧ splitFor 2 = [60, 40] ∧ splitFor 3 = [50, 30, 20] ∧
    (∀ n, 3 < n →
      splitFor n = List.replicate (100 % n) (100 / n + 1) ++
        List.replicate (n - 100 % n) (100 / n) ∧ (splitFor n).sum = 100) ∧
    (computeWinnersFromOnchain_lb cOkW 3 0).1 =
      .ok ⟨["w1", "w2", "w3"], [500, 300, 200], 0, 0, 1000⟩ := by
  refine ⟨by decide, by decide, by decide, ?_, by rfl⟩
  intro n hn
  exact ⟨splitFor_shape n hn, splitFor_sum_eq n hn⟩

/-- Witness for C4 at seven winners: two entries of 15 percent and five of
14 percent, summing to exactly 100. -/
theorem claim4_witness :
    splitFor 7 = List.replicate (100 % 7) (100 / 7 + 1) ++
      List.replicate (7 - 100 % 7) (100 / 7) ∧ (splitFor 7).sum = 100 :=
  claim4_split_table.2.2.2.1 7 (by decide)

/-- Claim C9: the leaderboard query excludes every address whose highest
score is at most 0, both from the returned leaderboard entries and from rank
computation (entries only ever come from records with positive scores, and
an excluded address never appears), and when such an address is queried
individually its rank is null. -/
theorem claim9_leaderboard_excludes_nonpositive
    (scores : List (String × ScoreRec)) (limit : Nat) (u : String)
    (p : ScoreRec)
    (hkeys : ∀ kv ∈ scores, (kv.2).user_address = kv.1)
    (hnodup : (scores.map Prod.fst).Nodup)
    (hlook : lookupA scores (jsLower (jsTrim u)) = some p)
    (hnp : p.highest_score ≤ 0) :
    (∀ e ∈ (getLeaderboard scores limit (some u)).1, 0 < e.score) ∧
    (∀ e ∈ (getLeaderboard scores limit (some u)).1,
      e.user_address ≠ jsLower (jsTrim u)) ∧
    (getLeaderboard scores limit (some u)).2 =
      some ⟨p.user_address, p.profile_name, p.highest_score, p.level, none⟩ := by
  have hsrc : ∀ e ∈ (getLeaderboard scores limit (some u)).1,
      ∃ q, q ∈ (scores.map Prod.snd).filter (fun s => 0 < s.highest_score) ∧
        e.user_address = q.user_address ∧ e.score = q.highest_score := by
    intro e he
    simp only [getLeaderboard] at he
    obtain ⟨q, hq, ha, hs⟩ := mem_rankify e 0 _ he
    have hq2 := List.take_subset _ _ hq
    rw [mem_sortDescBy] at hq2
    exact ⟨q, hq2, ha, hs⟩
  refine ⟨?_, ?_, ?_⟩
  · intro e he
    obtain ⟨q, hq, _, hs⟩ := hsrc e he
    have := (List.mem_filter.mp hq).2
    rw [hs]
    exact of_decide_eq_true this
  · intro e he heq
    obtain ⟨q, hq, ha, hs⟩ := hsrc e he
    have hpos := of_decide_eq_true (List.mem_filter.mp hq).2
    have hmem := (List.mem_filter.mp hq).1
    obtain ⟨kv, hkv, hkvq⟩ := List.mem_map.mp hmem
    have hk := hkeys kv hkv
    rw [hkvq] at hk
    have hmem2 : (jsLower (jsTrim u), q) ∈ scores := by
      have h7 : jsLower (jsTrim u) = kv.1 := by rw [← heq, ha, hk]
      have h8 : (jsLower (jsTrim u), q) = kv := by
        rw [h7, ← hkvq]
      rw [h8]
      exact hkv
    have hlk := lookupA_eq_of_mem_nodup scores _ q hmem2 hnodup
    rw [hlook] at hlk
    injection hlk with hlk
    rw [hlk] at hnp
    omega
  · simp only [getLeaderboard]
    rw [hlook]
    dsimp only
    rw [if_neg (not_lt.mpr hnp)]

/-- A sample score table with one positive and one zero score. -/
def scoresW : List (String × ScoreRec) :=
  [("b", ⟨"b", none, none, 7, none, 1, 1⟩), ("a", ⟨"a", none, none, 0, none, 1, 1⟩)]

/-- Witness for C9: the zero-score address, queried individually, has a null
rank. -/
theorem claim9_witness :
    (getLeaderboard scoresW 10 (some "a")).2 = some ⟨"a", none, 0, 1, none⟩ :=
  (claim9_leaderboard_excludes_nonpositive scoresW 10 "a"
    ⟨"a", none, none, 0, none, 1, 1⟩ (by decide) (by decide) (by decide)
    (by decide)).2.2

/-- Validity of one replay event: both numbers are finite (present) and
non-negative. -/
def evOk (ev : ReplayEvent) : Prop :=
  ∃ t s, ev.time = some t ∧ ev.score = some s ∧ 0 ≤ t ∧ 0 ≤ s

/-- The event times of a replay (0 standing in for an absent number; the
claims only use this on valid replays, where every time is present). -/
def times (replay : List ReplayEvent) : List ℚ :=
  replay.map (fun ev => ev.time.getD 0)

/-- The floored event scores of a replay, as the validation loop collects
them. -/
def floors (replay : List ReplayEvent) : List Int :=
  replay.map (fun ev => Rat.floor (ev.score.getD 0))

/-- Non-decreasing check of a time list against a running previous time,
mirroring the loop condition of the handler. -/
def timesND : ℚ → List ℚ → Bool
  | _, [] => true
  | t0, t :: ts => (!(decide (t < t0))) && timesND t ts

theorem scanEvents_eq (replay : List ReplayEvent) :
    ∀ (t0 : ℚ) (m : Bool) (acc : List Int),
    (∀ ev ∈ replay, evOk ev) →
    scanEvents replay t0 m acc =
      some (m && timesND t0 (times replay),
        acc.reverse ++ floors replay,
        (times replay).foldl (fun _ t => t) t0) := by
  induction replay with
  | nil =>
    intro t0 m acc _
    simp [scanEvents, times, floors, timesND]
  | cons ev rest ih =>
    intro t0 m acc hv
    obtain ⟨t, s, ht, hs, ht0, hs0⟩ := hv ev (List.mem_cons_self ..)
    have hv2 : ∀ e ∈ rest, evOk e := fun e he => hv e (List.mem_cons_of_mem _ he)
    have htt : times (ev :: rest) = t :: times rest := by simp [times, ht]
    have hff : floors (ev :: rest) = Rat.floor s :: floors rest := by
      simp [floors, hs]
    rw [htt, hff]
    simp only [scanEvents]
    rw [ht, hs]
    dsimp only
    rw [if_pos ⟨ht0, hs0⟩]
    rw [ih t (m && !(decide (t < t0))) (Rat.floor s :: acc) hv2]
    rw [show timesND t0 (t :: times rest) =
      ((!(decide (t < t0))) && timesND t (times rest)) from rfl]
    rw [← Bool.and_assoc]
    simp [List.append_assoc]

theorem timesND_iff (t0 : ℚ) (ts : List ℚ) :
    timesND t0 ts = true ↔
      ((∀ y ∈ ts.head?, t0 ≤ y) ∧ List.Chain' (· ≤ ·) ts) := by
  induction ts generalizing t0 with
  | nil => simp [timesND]
  | cons t ts ih =>
    rw [show timesND t0 (t :: ts) = ((!(decide (t < t0))) && timesND t ts) from rfl]
    rw [Bool.and_eq_true, ih t, List.chain'_cons']
    simp only [Bool.not_eq_true', decide_eq_false_iff_not, not_lt,
      List.head?_cons, Option.mem_def, Option.some.injEq]
    constructor
    · rintro ⟨h1, h2, h3⟩
      exact ⟨fun y hy => hy ▸ h1, h2, h3⟩
    · rintro ⟨h1, h2, h3⟩
      exact ⟨h1 t rfl, h2, h3⟩

theorem timesND_neg_one (replay : List ReplayEvent)
    (hv : ∀ ev ∈ replay, evOk ev) :
    (timesND (-1) (times replay) = true ↔
      List.Chain' (· ≤ ·) (times replay)) := by
  rw [timesND_iff]
  constructor
  · exact fun h => h.2
  · intro h
    refine ⟨?_, h⟩
    intro y hy
    match replay, hv, hy with
    | ev :: rest, hv, hy =>
      obtain ⟨t, s, ht, hs, ht0, _⟩ := hv ev (List.mem_cons_self ..)
      simp only [times, List.map_cons, List.head?_cons, Option.mem_def,
        Option.some.injEq] at hy
      rw [ht] at hy
      simp only [Option.getD_some] at hy
      subst hy
      linarith

theorem getLast?_map {α β : Type} (f : α → β) (l : List α) :
    (l.map f).getLast? = l.getLast?.map f := by
  induction l with
  | nil => rfl
  | cons x xs ih =>
    cases xs with
    | nil => rfl
    | cons y ys =>
      rw [List.map_cons, List.map_cons, List.getLast?_cons_cons,
        List.getLast?_cons_cons, ← List.map_cons, ih]

theorem foldl_last {α : Type} (l : List α) (a : α) :
    l.foldl (fun _ t => t) a = l.getLast?.getD a := by
  induction l generalizing a with
  | nil => rfl
  | cons x xs ih =>
    rw [List.foldl_cons]
    rw [ih x]
    cases hxs : xs with
    | nil => rfl
    | cons y ys =>
      have hne : (y :: ys).getLast? ≠ none := by simp
      obtain ⟨z, hz⟩ := Option.ne_none_iff_exists'.mp hne
      rw [List.getLast?_cons_cons, hz]
      rfl

/-- Counterexample to claim C6 as stated: the single-event replay with score
1/2 is valid (finite, non-negative) and monotonic, but the server-trusted
score is 0, the floor of the last score, not the last score 1/2 itself. -/
theorem claim6_counterexample :
    scoreReplay [⟨some 0, some (mkRat 1 2)⟩] = some (true, 0, 0) ∧
    (mkRat 1 2 : ℚ) ≠ (0 : ℚ) := by
  constructor
  · decide
  · decide

/-- Claim C6 (amended): for every valid replay (1 to 5000 events, each with
finite non-negative time and score), the server-trusted score is the floor
of the last event score when the times are non-decreasing across the
sequence, and otherwise the maximum of the floored scores (that value is a
floored score and bounds all of them); survivalTicks is the last event
time. -/
theorem claim6_amended_server_score (replay : List ReplayEvent)
    (lastEv : ReplayEvent) (hne : replay.getLast? = some lastEv)
    (_hlen : replay.length ≤ 5000)
    (hv : ∀ ev ∈ replay, evOk ev) :
    scoreReplay replay =
      some (decide (List.Chain' (· ≤ ·) (times replay)),
        (if List.Chain' (· ≤ ·) (times replay)
         then Rat.floor (lastEv.score.getD 0)
         else maxOf (floors replay)),
        lastEv.time.getD 0) ∧
    maxOf (floors replay) ∈ floors replay ∧
    (∀ x ∈ floors replay, x ≤ maxOf (floors replay)) := by
  have hnenil : replay ≠ [] := by
    intro hh
    rw [hh] at hne
    exact Option.noConfusion hne
  have hfne : floors replay ≠ [] := by
    intro hh
    apply hnenil
    have h2 := congrArg List.length hh
    simp only [floors, List.length_map, List.length_nil] at h2
    exact List.eq_nil_of_length_eq_zero h2
  refine ⟨?_, maxOf_mem _ hfne, fun x hx => le_maxOf _ x hx⟩
  unfold scoreReplay
  rw [scanEvents_eq replay (-1) true [] hv]
  dsimp only
  have hbool : timesND (-1) (times replay) =
      decide (List.Chain' (· ≤ ·) (times replay)) := by
    by_cases hch : List.Chain' (· ≤ ·) (times replay)
    · rw [(timesND_neg_one replay hv).mpr hch, decide_eq_true hch]
    · have h1 : timesND (-1) (times replay) ≠ true :=
        fun hh => hch ((timesND_neg_one replay hv).mp hh)
      have h2 : timesND (-1) (times replay) = false := Bool.eq_false_iff.mpr h1
      rw [h2, decide_eq_false hch]
  have hsurv : (times replay).foldl (fun _ t => t) (-1) = lastEv.time.getD 0 := by
    rw [foldl_last]
    rw [times, getLast?_map, hne]
    rfl
  have hlast : (floors replay).getLast? =
      some (Rat.floor (lastEv.score.getD 0)) := by
    rw [floors, getLast?_map, hne]
    rfl
  rw [Bool.true_and, hbool, hsurv]
  simp only [List.reverse_nil, List.nil_append]
  by_cases hch : List.Chain' (· ≤ ·) (times replay) <;> simp [hch, hlast]

/-- Witness for the amended C6 at the monotonic two-event replay of the
specification: score 50 (the last entry) and survival ticks 5. -/
theorem claim6_witness :
    scoreReplay [⟨some 0, some 10⟩, ⟨some 5, some 50⟩] =
      some (decide (List.Chain' (· ≤ ·)
          (times [⟨some 0, some 10⟩, ⟨some 5, some 50⟩])),
        (if List.Chain' (· ≤ ·)
            (times [⟨some 0, some 10⟩, ⟨some 5, some 50⟩])
         then Rat.floor (((⟨some 5, some 50⟩ : ReplayEvent)).score.getD 0)
         else maxOf (floors [⟨some 0, some 10⟩, ⟨some 5, some 50⟩])),
        ((⟨some 5, some 50⟩ : ReplayEvent)).time.getD 0) :=
  (claim6_amended_server_score [⟨some 0, some 10⟩, ⟨some 5, some 50⟩]
    ⟨some 5, some 50⟩ rfl (by decide)
    (by
      intro ev hev
      rcases List.mem_cons.mp hev with rfl | hev2
      · exact ⟨0, 10, rfl, rfl, by norm_num, by norm_num⟩
      · rcases List.mem_cons.mp hev2 with rfl | hev3
        · exact ⟨5, 50, rfl, rfl, by norm_num, by norm_num⟩
        · cases hev3)).1

/-- A submit-replay call with a well-formed payload but an unknown session
id is rejected with "session not found" and has no side effects. -/
theorem submitReplay_notFound (now : Int) (st : SrvState) (rq : SubmitReq)
    (hsid : rq.sessionId ≠ "") (hrep : rq.replay ≠ none)
    (hs : lookupA st.sessions rq.sessionId = none) :
    submitReplay now st rq = (.err400 "session not found", st) := by
  unfold submitReplay
  rw [if_neg (by simp [hsid, hrep]), hs]

/-- A submit-replay call on an already used session is rejected with
"session already used" and has no side effects. -/
theorem submitReplay_alreadyUsed (now : Int) (st : SrvState) (rq : SubmitReq)
    (s : Session) (hsid : rq.sessionId ≠ "") (hrep : rq.replay ≠ none)
    (hs : lookupA st.sessions rq.sessionId = some s) (hu : s.used = true) :
    submitReplay now st rq = (.err400 "session already used", st) := by
  unfold submitReplay
  rw [if_neg (by simp [hsid, hrep]), hs]
  dsimp only
  rw [hu]
  simp

/-- A submit-replay call on an expired session is rejected with
"session expired" and has no side effects. -/
theorem submitReplay_expired (now : Int) (st : SrvState) (rq : SubmitReq)
    (s : Session) (hsid : rq.sessionId ≠ "") (hrep : rq.replay ≠ none)
    (hs : lookupA st.sessions rq.sessionId = some s) (hu : s.used = false)
    (he : s.expiresAt < now) :
    submitReplay now st rq = (.err400 "session expired", st) := by
  unfold submitReplay
  rw [if_neg (by simp [hsid, hrep]), hs]
  dsimp only
  rw [hu]
  simp only [Bool.false_eq_true, if_false]
  rw [if_pos he]

/-- Exhaustive description of a submit-replay call: either it is rejected
with a 400 and the state is unchanged, or it is rejected as a duplicate with
the state unchanged, or it is accepted, in which case the replay passed
validation, the session is deleted, the verified play is appended and the
score records are updated. -/
theorem submitReplay_cases (now : Int) (st : SrvState) (rq : SubmitReq) :
    ((∃ m, (submitReplay now st rq).1 = .err400 m) ∧
      (submitReplay now st rq).2 = st) ∨
    ((submitReplay now st rq).1 = .dup409 ∧ (submitReplay now st rq).2 = st) ∨
    (rq.sessionId ≠ "" ∧ ∃ replay sc sv,
      rq.replay = some replay ∧
      replay.length ≠ 0 ∧ ¬ 5000 < replay.length ∧
      (∃ mono, scoreReplay replay = some (mono, sc, sv)) ∧
      (submitReplay now st rq).1 = .ok200 sc sv ∧
      (submitReplay now st rq).2 =
        ⟨delA st.sessions rq.sessionId,
          st.plays ++ [⟨rq.sessionId,
            jsLower (jsTrim (rq.userAddress.getD "unknown")), replay, sc, sv⟩],
          replayScoreUpdate st rq sc⟩) := by
  unfold submitReplay
  by_cases h1 : rq.sessionId = "" ∨ rq.replay = none
  · rw [if_pos h1]
    exact Or.inl ⟨⟨_, rfl⟩, rfl⟩
  · rw [if_neg h1]
    push_neg at h1
    match hs : lookupA st.sessions rq.sessionId with
    | none => exact Or.inl ⟨⟨_, rfl⟩, rfl⟩
    | some s =>
      dsimp only
      by_cases hu : s.used = true
      · rw [if_pos hu]
        exact Or.inl ⟨⟨_, rfl⟩, rfl⟩
      · rw [if_neg hu]
        by_cases he : s.expiresAt < now
        · rw [if_pos he]
          exact Or.inl ⟨⟨_, rfl⟩, rfl⟩
        · rw [if_neg he]
          match hr : rq.replay with
          | none => exact absurd hr h1.2
          | some replay =>
            dsimp only
            by_cases hl : replay.length = 0 ∨ 5000 < replay.length
            · rw [if_pos hl]
              exact Or.inl ⟨⟨_, rfl⟩, rfl⟩
            · rw [if_neg hl]
              push_neg at hl
              match hsc : scoreReplay replay with
              | none =>
                dsimp only
                exact Or.inl ⟨⟨_, rfl⟩, rfl⟩
              | some (mono, sc, sv) =>
                dsimp only
                by_cases hd : st.plays.any (fun p => p.replay_hash = replay) = true
                · rw [if_pos hd]
                  exact Or.inr (Or.inl ⟨rfl, rfl⟩)
                · rw [if_neg hd]
                  exact Or.inr (Or.inr ⟨h1.1, replay, sc, sv, rfl, hl.1,
                    not_lt.mpr hl.2, ⟨mono, hsc⟩, rfl, rfl⟩)

/-- Claim C7: a session is consumed exactly once: submit-replay fails with
"session not found" when the session is absent, "session already used" when
it is used, and "session expired" when it has expired (each with no side
effects); and on an accepted submission the session is deleted outright, so
any subsequent submit-replay with the same session id is rejected with the
session-not-found error and changes nothing. -/
theorem claim7_session_single_use (now : Int) (st : SrvState) (rq : SubmitReq) :
    (rq.sessionId ≠ "" → rq.replay ≠ none →
      lookupA st.sessions rq.sessionId = none →
      submitReplay now st rq = (.err400 "session not found", st)) ∧
    (∀ s, rq.sessionId ≠ "" → rq.replay ≠ none →
      lookupA st.sessions rq.sessionId = some s → s.used = true →
      submitReplay now st rq = (.err400 "session already used", st)) ∧
    (∀ s, rq.sessionId ≠ "" → rq.replay ≠ none →
      lookupA st.sessions rq.sessionId = some s → s.used = false →
      s.expiresAt < now →
      submitReplay now st rq = (.err400 "session expired", st)) ∧
    (∀ sc sv, (submitReplay now st rq).1 = .ok200 sc sv →
      lookupA (submitReplay now st rq).2.sessions rq.sessionId = none ∧
      (∀ now2 rq2, rq2.sessionId = rq.sessionId → rq2.replay ≠ none →
        submitReplay now2 (submitReplay now st rq).2 rq2 =
          (.err400 "session not found", (submitReplay now st rq).2))) := by
  refine ⟨fun h1 h2 h3 => submitReplay_notFound now st rq h1 h2 h3,
    fun s h1 h2 h3 h4 => submitReplay_alreadyUsed now st rq s h1 h2 h3 h4,
    fun s h1 h2 h3 h4 h5 => submitReplay_expired now st rq s h1 h2 h3 h4 h5,
    ?_⟩
  intro sc sv hacc
  rcases submitReplay_cases now st rq with ⟨⟨m, hm⟩, _⟩ | ⟨hm, _⟩ | hA
  · rw [hm] at hacc
    exact SubmitResp.noConfusion hacc
  · rw [hm] at hacc
    exact SubmitResp.noConfusion hacc
  · obtain ⟨hsid1, replay, sc2, sv2, hrep1, _, _, _, hok, hst⟩ := hA
    have hsess : (submitReplay now st rq).2.sessions =
        delA st.sessions rq.sessionId := by rw [hst]
    constructor
    · rw [hsess, lookupA_delA]
      simp
    · intro now2 rq2 hsid2 hrep2
      apply submitReplay_notFound
      · rw [hsid2]
        exact hsid1
      · exact hrep2
      · rw [hsess, hsid2, lookupA_delA]
        simp

/-- A sample valid replay event. -/
def evW : ReplayEvent := ⟨some 0, some 10⟩

/-- A sample server state with two fresh sessions. -/
def stW : SrvState := ⟨[("s1", ⟨false, 100⟩), ("s2", ⟨false, 100⟩)], [], []⟩

/-- A sample submit-replay request on the first session. -/
def rqW1 : SubmitReq := ⟨"s1", some "alice", some [evW], none, none, none⟩

/-- Witness for C7: after the concrete accepted submission the session is
gone from the session map. -/
theorem claim7_witness :
    lookupA (submitReplay 0 stW rqW1).2.sessions rqW1.sessionId = none :=
  ((claim7_session_single_use 0 stW rqW1).2.2.2 10 0 (by decide)).1

/-- Claim C5: a given canonicalized replay content is accepted at most once:
once a submit-replay call with some replay content has been accepted, a
second call carrying the same canonical content — under any other valid
session and any address — is rejected as a duplicate (HTTP 409) with no
verified-play insert and no score-record update (the state is unchanged). -/
theorem claim5_duplicate_replay (now now2 : Int) (st : SrvState)
    (rq1 rq2 : SubmitReq) (sc : Int) (sv : ℚ) (s2 : Session)
    (hacc : (submitReplay now st rq1).1 = .ok200 sc sv)
    (hsame : rq2.replay = rq1.replay)
    (hsid2 : rq2.sessionId ≠ "")
    (hs2 : lookupA (submitReplay now st rq1).2.sessions rq2.sessionId = some s2)
    (hu2 : s2.used = false)
    (he2 : ¬ s2.expiresAt < now2) :
    submitReplay now2 (submitReplay now st rq1).2 rq2 =
      (.dup409, (submitReplay now st rq1).2) := by
  rcases submitReplay_cases now st rq1 with ⟨⟨m, hm⟩, _⟩ | ⟨hm, _⟩ | hA
  · rw [hm] at hacc
    exact SubmitResp.noConfusion hacc
  · rw [hm] at hacc
    exact SubmitResp.noConfusion hacc
  · obtain ⟨hsid1, replay, sc2, sv2, hrep1, hlen0, hlen5, ⟨mono, hscan⟩, hok, hst⟩ := hA
    rw [hok] at hacc
    injection hacc with h1 h2
    subst h1
    subst h2
    have hrep2 : rq2.replay = some replay := hsame.trans hrep1
    rw [hst] at hs2 ⊢
    unfold submitReplay
    rw [if_neg (by simp [hsid2, hrep2])]
    rw [hs2]
    dsimp only
    rw [hu2]
    simp only [Bool.false_eq_true, if_false]
    rw [if_neg he2]
    rw [hrep2]
    dsimp only
    rw [if_neg (fun h => h.elim hlen0 hlen5)]
    rw [hscan]
    dsimp only
    have hany : (st.plays ++ [(⟨rq1.sessionId,
        jsLower (jsTrim (rq1.userAddress.getD "unknown")), replay, sc2,
        sv2⟩ : VerifiedPlay)]).any
        (fun p => p.replay_hash = replay) = true := by
      rw [List.any_append]
      simp
    rw [if_pos hany]

/-- A second submit-replay request, on the other session, carrying the same
replay content as the first. -/
def rqW2 : SubmitReq := ⟨"s2", some "bob", some [evW], none, none, none⟩

/-- Witness for C5: after the first concrete submission is accepted, the
same replay content under the second valid session is rejected as a
duplicate with the state unchanged. -/
theorem claim5_witness :
    submitReplay 0 (submitReplay 0 stW rqW1).2 rqW2 =
      (.dup409, (submitReplay 0 stW rqW1).2) :=
  claim5_duplicate_replay 0 0 stW rqW1 rqW2 10 0 ⟨false, 100⟩
    (by decide) rfl (by decide) (by decide) rfl (by decide)

/-- Per-address injectivity of the profile-name index: two normalized names
owned by the same address coincide. -/
def namesInj (st : ProfState) : Prop :=
  ∀ n1 n2 a, lookupA st.profileNames n1 = some a →
    lookupA st.profileNames n2 = some a → n1 = n2

/-- Coupling of the profile-name index to the score records: a normalized
name owned by an address is the lower-cased display name stored on the
score record of that address. -/
def namesCoupled (st : ProfState) : Prop :=
  ∀ n a, lookupA st.profileNames n = some a →
    ∃ r, lookupA st.scores a = some r ∧
      ∃ p, r.profile_name = some p ∧ jsLower p = n

/-- The profile-name index invariant maintained by update-profile alone. -/
def ProfInv (st : ProfState) : Prop := namesInj st ∧ namesCoupled st

/-- Branch characterization of updateProfile: it answers an input-validation
error leaving the state unchanged, a conflict when the normalized name is
owned by another address, an idempotent success when it is owned by this
address, or a success installing the name after removing the stale entry of
this address when the index has one pointing back at it. -/
theorem updateProfile_cases (st : ProfState) (user : String)
    (pn : Option String) :
    ((user = "" ∨ pn = none ∨ jsLower (jsTrim user) = "" ∨
        (∃ pnBody, pn = some pnBody ∧
          ((jsTrim pnBody).length = 0 ∨ 32 < (jsTrim pnBody).length ∨
            ¬ (jsTrim pnBody).data.all validNameChar = true))) ∧
      ∃ m, updateProfile st user pn = (.err400 m, st)) ∨
    (∃ pnBody owner, pn = some pnBody ∧
      lookupA st.profileNames (jsLower (jsTrim pnBody)) = some owner ∧
      owner ≠ jsLower (jsTrim user) ∧
      updateProfile st user pn = (.conflict409, st)) ∨
    (∃ pnBody owner, pn = some pnBody ∧
      lookupA st.profileNames (jsLower (jsTrim pnBody)) = some owner ∧
      owner = jsLower (jsTrim user) ∧
      ∃ r1 : ScoreRec, r1.profile_name = some (jsTrim pnBody) ∧
        updateProfile st user pn =
          (.ok200,
            { st with
                scores := setA st.scores (jsLower (jsTrim user)) r1 })) ∨
    (∃ pnBody, pn = some pnBody ∧
      lookupA st.profileNames (jsLower (jsTrim pnBody)) = none ∧
      ∃ r1 : ScoreRec, r1.profile_name = some (jsTrim pnBody) ∧
        ∃ names1 : List (String × String),
          (∀ n a, lookupA names1 n = some a →
            lookupA st.profileNames n = some a) ∧
          (namesCoupled st →
            ∀ n, lookupA names1 n ≠ some (jsLower (jsTrim user))) ∧
          updateProfile st user pn =
            (.ok200,
              ⟨setA st.scores (jsLower (jsTrim user)) r1,
                setA names1 (jsLower (jsTrim pnBody))
                  (jsLower (jsTrim user))⟩)) := by
  unfold updateProfile
  by_cases hu : user = ""
  · exact Or.inl ⟨Or.inl hu, "Missing user", by rw [if_pos hu]⟩
  rw [if_neg hu]
  match hpn : pn with
  | none =>
    exact Or.inl ⟨Or.inr (Or.inl rfl), "Missing profile_name", rfl⟩
  | some pnBody =>
    dsimp only
    by_cases ha : jsLower (jsTrim user) = ""
    · exact Or.inl ⟨Or.inr (Or.inr (Or.inl ha)), "Invalid user",
        by rw [if_pos ha]⟩
    rw [if_neg ha]
    by_cases hl : (jsTrim pnBody).length = 0 ∨ 32 < (jsTrim pnBody).length
    · refine Or.inl ⟨Or.inr (Or.inr (Or.inr ⟨pnBody, rfl, ?_⟩)),
        "profile_name must be 1-32 characters", by rw [if_pos hl]⟩
      rcases hl with hl | hl
      · exact Or.inl hl
      · exact Or.inr (Or.inl hl)
    rw [if_neg hl]
    by_cases hc : ¬ (jsTrim pnBody).data.all validNameChar = true
    · exact Or.inl ⟨Or.inr (Or.inr (Or.inr ⟨pnBody, rfl, Or.inr (Or.inr hc)⟩)),
        "profile_name contains invalid characters", by rw [if_pos hc]⟩
    rw [if_neg hc]
    match hlook : lookupA st.profileNames (jsLower (jsTrim pnBody)) with
    | some owner =>
      dsimp only
      by_cases how : owner ≠ jsLower (jsTrim user)
      · exact Or.inr (Or.inl ⟨pnBody, owner, rfl, hlook, how,
          by rw [if_pos how]⟩)
      · rw [if_neg how]
        push_neg at how
        exact Or.inr (Or.inr (Or.inl ⟨pnBody, owner, rfl, hlook, how, _,
          rfl, rfl⟩))
    | none =>
      dsimp only
      refine Or.inr (Or.inr (Or.inr ⟨pnBody, rfl, hlook, _, rfl, _,
        ?_, ?_, rfl⟩))
      · intro n a hna
        match hprev : (lookupA st.scores (jsLower (jsTrim user))).bind
            (fun r0 => r0.profile_name) with
        | none =>
          rw [hprev] at hna
          exact hna
        | some prev =>
          rw [hprev] at hna
          dsimp only at hna
          by_cases hd : lookupA st.profileNames (jsLower prev) =
              some (jsLower (jsTrim user))
          · rw [if_pos hd] at hna
            rw [lookupA_delA] at hna
            by_cases hn : n = jsLower prev
            · rw [if_pos hn] at hna
              exact Option.noConfusion hna
            · rw [if_neg hn] at hna
              exact hna
          · rw [if_neg hd] at hna
            exact hna
      · intro hcoup n hna
        match hprev : (lookupA st.scores (jsLower (jsTrim user))).bind
            (fun r0 => r0.profile_name) with
        | none =>
          rw [hprev] at hna
          obtain ⟨r, hr, p, hp, _⟩ := hcoup n _ hna
          rw [hr] at hprev
          dsimp only [Option.bind] at hprev
          rw [hp] at hprev
          exact Option.noConfusion hprev
        | some prev =>
          rw [hprev] at hna
          dsimp only at hna
          by_cases hd : lookupA st.profileNames (jsLower prev) =
              some (jsLower (jsTrim user))
          · rw [if_pos hd] at hna
            rw [lookupA_delA] at hna
            by_cases hn : n = jsLower prev
            · rw [if_pos hn] at hna
              exact Option.noConfusion hna
            · rw [if_neg hn] at hna
              obtain ⟨r, hr, p, hp, hjp⟩ := hcoup n _ hna
              rw [hr] at hprev
              dsimp only [Option.bind] at hprev
              rw [hp] at hprev
              have hpp : p = prev := Option.some.inj hprev
              rw [hpp] at hjp
              exact hn hjp.symm
          · rw [if_neg hd] at hna
            obtain ⟨r, hr, p, hp, hjp⟩ := hcoup n _ hna
            rw [hr] at hprev
            dsimp only [Option.bind] at hprev
            rw [hp] at hprev
            have hpp : p = prev := Option.some.inj hprev
            rw [← hpp] at hd
            rw [hjp] at hd
            exact hd hna

/-- State reached by registering the profile name alice for address a. -/
def st8a : ProfState := (updateProfile ⟨[], []⟩ "a" (some "alice")).2

/-- State reached after a submit-score call then renames the display name of
address a to bob without touching the ownership index. -/
def st8b : ProfState := (submitScore st8a "a" 5 (some "bob") none).2

/-- State reached after an update-profile call to carol: the stale alice
entry is not removed because the index lookup is keyed on the current
display name bob, which the index never recorded. -/
def st8c : ProfState := (updateProfile st8b "a" (some "carol")).2

/-- Counterexample to claim C8 as stated: in a state reachable through the
public operations update-profile, submit-score, update-profile, the
normalized names alice and carol are simultaneously owned by the single
address a, so an address can own two normalized names and renaming did not
remove the old mapping. -/
theorem claim8_counterexample :
    lookupA st8c.profileNames "alice" = some "a" ∧
    lookupA st8c.profileNames "carol" = some "a" ∧
    ("alice" : String) ≠ "carol" ∧
    (updateProfile ⟨[], []⟩ "a" (some "alice")).1 = .ok200 ∧
    (submitScore st8a "a" 5 (some "bob") none).1 = .ok200 ∧
    (updateProfile st8b "a" (some "carol")).1 = .ok200 := by
  decide

/-- Claim C8 (amended): the bijectivity of the profile-name index is an
invariant of update-profile alone (submit-score breaks it by renaming the
display name without maintaining the index): update-profile preserves the
invariant that each address owns at most one normalized name and every
owned name is the lower-cased display name of its owner; a conflict answer
leaves the state unchanged; a validated request for a name owned by another
address is rejected with 409; and after a successful update the caller owns
the new normalized name and no other. -/
theorem claim8_amended_profile_index (st : ProfState) (user : String)
    (pn : Option String) (hinv : ProfInv st) :
    ProfInv (updateProfile st user pn).2 ∧
    ((updateProfile st user pn).1 = .conflict409 →
      (updateProfile st user pn).2 = st) ∧
    (∀ pnBody owner, pn = some pnBody →
      lookupA st.profileNames (jsLower (jsTrim pnBody)) = some owner →
      owner ≠ jsLower (jsTrim user) →
      user ≠ "" → jsLower (jsTrim user) ≠ "" →
      ¬ ((jsTrim pnBody).length = 0 ∨ 32 < (jsTrim pnBody).length) →
      (jsTrim pnBody).data.all validNameChar = true →
      (updateProfile st user pn).1 = .conflict409) ∧
    (∀ pnBody, pn = some pnBody →
      (updateProfile st user pn).1 = .ok200 →
      lookupA (updateProfile st user pn).2.profileNames
          (jsLower (jsTrim pnBody)) = some (jsLower (jsTrim user)) ∧
      ∀ n, lookupA (updateProfile st user pn).2.profileNames n =
          some (jsLower (jsTrim user)) → n = jsLower (jsTrim pnBody)) := by
  rcases updateProfile_cases st user pn with
    ⟨hwhy, m, heq⟩ |
    ⟨pnBody, owner, hpn, hlook, hne, heq⟩ |
    ⟨pnBody, owner, hpn, hlook, hown, r1, hr1, heq⟩ |
    ⟨pnBody, hpn, hlook, r1, hr1, names1, hsub, hgone, heq⟩
  · refine ⟨by rw [heq]; exact hinv, ?_, ?_, ?_⟩
    · intro h
      rw [heq] at h
      exact ProfResp.noConfusion h
    · intro pnBody2 owner2 hpn2 hlook2 hne2 huser hanz hlen hchars
      rcases hwhy with h | h | h | ⟨pnBody3, hpn3, h⟩
      · exact absurd h huser
      · rw [hpn2] at h
        exact Option.noConfusion h
      · exact absurd h hanz
      · rw [hpn2] at hpn3
        have hb : pnBody2 = pnBody3 := Option.some.inj hpn3
        rw [← hb] at h
        rcases h with h | h | h
        · exact absurd (Or.inl h) hlen
        · exact absurd (Or.inr h) hlen
        · exact absurd hchars h
    · intro pnBody2 hpn2 hok
      rw [heq] at hok
      exact ProfResp.noConfusion hok
  · refine ⟨by rw [heq]; exact hinv, ?_, ?_, ?_⟩
    · intro _
      rw [heq]
    · intro pnBody2 owner2 hpn2 hlook2 hne2 huser hanz hlen hchars
      rw [heq]
    · intro pnBody2 hpn2 hok
      rw [heq] at hok
      exact ProfResp.noConfusion hok
  · have haddr := hown
    refine ⟨?_, ?_, ?_, ?_⟩
    · rw [heq]
      refine ⟨hinv.1, ?_⟩
      intro n a hna
      dsimp only at hna
      by_cases hA : a = jsLower (jsTrim user)
      · have hn : n = jsLower (jsTrim pnBody) := by
          apply hinv.1 n (jsLower (jsTrim pnBody)) a hna
          rw [hlook, hown, hA]
        refine ⟨r1, ?_, jsTrim pnBody, hr1, hn.symm⟩
        dsimp only
        rw [hA, lookupA_setA_self]
      · obtain ⟨r, hr, p, hp, hjp⟩ := hinv.2 n a hna
        refine ⟨r, ?_, p, hp, hjp⟩
        dsimp only
        rw [lookupA_setA_ne _ _ _ _ hA]
        exact hr
    · intro h
      rw [heq] at h
      exact ProfResp.noConfusion h
    · intro pnBody2 owner2 hpn2 hlook2 hne2 huser hanz hlen hchars
      rw [hpn] at hpn2
      have hb : pnBody = pnBody2 := Option.some.inj hpn2
      rw [← hb] at hlook2
      rw [hlook] at hlook2
      have ho : owner2 = owner := Option.some.inj hlook2.symm
      rw [ho, hown] at hne2
      exact absurd rfl hne2
    · intro pnBody2 hpn2 _
      rw [hpn] at hpn2
      have hb : pnBody = pnBody2 := Option.some.inj hpn2
      rw [← hb, heq]
      dsimp only
      constructor
      · rw [hlook, hown]
      · intro n hna
        exact hinv.1 n (jsLower (jsTrim pnBody)) _ hna (by rw [hlook, hown])
  · refine ⟨?_, ?_, ?_, ?_⟩
    · rw [heq]
      constructor
      · intro n1 n2 a h1 h2
        dsimp only at h1 h2
        by_cases hA : a = jsLower (jsTrim user)
        · have e1 : n1 = jsLower (jsTrim pnBody) := by
            by_contra hne1
            rw [lookupA_setA_ne _ _ _ _ hne1] at h1
            rw [hA] at h1
            exact hgone hinv.2 n1 h1
          have e2 : n2 = jsLower (jsTrim pnBody) := by
            by_contra hne2
            rw [lookupA_setA_ne _ _ _ _ hne2] at h2
            rw [hA] at h2
            exact hgone hinv.2 n2 h2
          rw [e1, e2]
        · have hne1 : n1 ≠ jsLower (jsTrim pnBody) := by
            intro hn
            rw [hn, lookupA_setA_self] at h1
            exact hA (Option.some.inj h1).symm
          have hne2 : n2 ≠ jsLower (jsTrim pnBody) := by
            intro hn
            rw [hn, lookupA_setA_self] at h2
            exact hA (Option.some.inj h2).symm
          rw [lookupA_setA_ne _ _ _ _ hne1] at h1
          rw [lookupA_setA_ne _ _ _ _ hne2] at h2
          exact hinv.1 n1 n2 a (hsub n1 a h1) (hsub n2 a h2)
      · intro n a hna
        dsimp only at hna
        by_cases hn : n = jsLower (jsTrim pnBody)
        · rw [hn, lookupA_setA_self] at hna
          have hA : jsLower (jsTrim user) = a := Option.some.inj hna
          refine ⟨r1, ?_, jsTrim pnBody, hr1, hn.symm⟩
          dsimp only
          rw [← hA, lookupA_setA_self]
        · rw [lookupA_setA_ne _ _ _ _ hn] at hna
          have hA : a ≠ jsLower (jsTrim user) := by
            intro hA
            rw [hA] at hna
            exact hgone hinv.2 n hna
          obtain ⟨r, hr, p, hp, hjp⟩ := hinv.2 n a (hsub n a hna)
          refine ⟨r, ?_, p, hp, hjp⟩
          dsimp only
          rw [lookupA_setA_ne _ _ _ _ hA]
          exact hr
    · intro h
      rw [heq] at h
      exact ProfResp.noConfusion h
    · intro pnBody2 owner2 hpn2 hlook2 hne2 huser hanz hlen hchars
      rw [hpn] at hpn2
      have hb : pnBody = pnBody2 := Option.some.inj hpn2
      rw [← hb, hlook] at hlook2
      exact Option.noConfusion hlook2
    · intro pnBody2 hpn2 _
      rw [hpn] at hpn2
      have hb : pnBody = pnBody2 := Option.some.inj hpn2
      rw [← hb, heq]
      dsimp only
      constructor
      · rw [lookupA_setA_self]
      · intro n hna
        by_cases hn : n = jsLower (jsTrim pnBody)
        · exact hn
        · rw [lookupA_setA_ne _ _ _ _ hn] at hna
          exact absurd hna (hgone hinv.2 n)

/-- Witness for C8 (amended): from the empty state, which satisfies the
invariant, registering alice for address a preserves the invariant and
makes a the owner of the normalized name. -/
theorem claim8_witness :
    ProfInv (updateProfile (⟨[], []⟩ : ProfState) "a" (some "alice")).2 ∧
    lookupA (updateProfile (⟨[], []⟩ : ProfState) "a"
        (some "alice")).2.profileNames (jsLower (jsTrim "alice")) =
      some (jsLower (jsTrim "a")) :=
  have hinv0 : ProfInv (⟨[], []⟩ : ProfState) :=
    ⟨fun n1 _ a h1 _ => by simp [lookupA] at h1,
      fun n a h => by simp [lookupA] at h⟩
  have h := claim8_amended_profile_index ⟨[], []⟩ "a" (some "alice") hinv0
  ⟨h.1, (h.2.2.2 "alice" rfl (by decide)).1⟩
